import Mathlib

set_option maxRecDepth 100000
set_option maxHeartbeats 1000000

/-!
Verification of the mkbootimg filesystem-image builders (ext2, FAT, LeanFS,
Minix3, ustar, FS/Z) from this repository.  Each C builder is shallowly
embedded: the flat byte buffer (`fs_base`) is viewed as typed state
(bitmaps as `Nat → Bool` over global unit indices, inode tables as
`Nat → _` maps keyed by `ino - 1`, block/zone payloads as typed block
contents), machine integers become `Nat`/`Int` with explicit masks where
overflow matters, and `exit(1)` paths become `Except Err` results.
Loops with data-dependent trip counts are given explicit fuel so that all
definitions compute inside the kernel; every concrete evaluation below
uses far less fuel than supplied.
-/

/-- Error outcomes of the builders: each corresponds to one
`fprintf(stderr, ...); exit(1)` site, identified by the `lang[...]` index
used there (`ERR_NOSIZE` prints the partition-too-small/size diagnostic,
`ERR_TOOBIG` prints "file too big", `ERR_TOOMANY` prints
"too many entries in directory"). -/
inductive Err where
  | nosize
  | toobig
  | toomany
deriving DecidableEq, Repr

/-- File kinds as classified by the `S_ISREG`/`S_ISDIR`/`S_ISLNK`/
`S_ISCHR`/`S_ISBLK` tests on `st_mode`. -/
inductive FKind where
  | reg
  | dir
  | lnk
  | chr
  | blkdev
  | fifo
  | sock
deriving DecidableEq, Repr

/-- The file-type bits of `st_mode` for each kind (high nibble of the
16-bit mode, as in `EXT2_S_IFREG = 0x8000` etc.). -/
def FKind.bits : FKind → Nat
  | .reg => 0x8000
  | .dir => 0x4000
  | .lnk => 0xA000
  | .chr => 0x2000
  | .blkdev => 0x6000
  | .fifo => 0x1000
  | .sock => 0xC000

/-- `st_mode`: type bits combined with the permission bits. -/
def stMode (k : FKind) (perm : Nat) : Nat := k.bits + perm % 0x1000

/-- ASCII of '/'. -/
def slashB : Nat := 47

/-- ASCII of '.'. -/
def dotB : Nat := 46

/-- `strrchr(name, '/')` followed by `+1`: the leaf component of a
slash-separated path (the whole path when it has no slash). -/
def leafOf : List Nat → List Nat
  | [] => []
  | a :: l =>
    if l.any (· = slashB) then leafOf l
    else if a = slashB then l
    else a :: l

/-- `strchr(name, '/')` distance: length of the first path component. -/
def compLen (name : List Nat) : Nat := (name.takeWhile (· ≠ slashB)).length

/-- Zero-pad a byte list on the right to length `n` (contents written
into a zero-initialised field of size `n`). -/
def padTo (n : Nat) (l : List Nat) : List Nat :=
  l ++ List.replicate (n - l.length) 0

/-- Octal digits of `v`, most significant first (the digit sequence
`printf "%o"` emits).  Fuel-structured so it computes in the kernel;
`v` itself is always enough fuel. -/
def octDigsAux : Nat → Nat → List Nat
  | 0, v => [v % 8]
  | f + 1, v => if v < 8 then [v] else octDigsAux f (v / 8) ++ [v % 8]

def octDigs (v : Nat) : List Nat := octDigsAux v v

/-- `sprintf "%0*o"`: `w`-wide zero-padded octal plus the terminating
NUL byte that sprintf writes after the digits. -/
def sprintfOct (w v : Nat) : List Nat :=
  List.replicate (w - (octDigs v).length) 48 ++ (octDigs v).map (· + 48) ++ [0]

/-- Read back a zero-padded ASCII-octal digit string as a number. -/
def parseOct (l : List Nat) : Nat := l.foldl (fun a d => a * 8 + (d - 48)) 0

/-! ## ustar builder (`tar.c`) -/

/-- The `" %1d"` typeflag pair written at offset 155: a space and the
ASCII digit 5 (dir), 2 (symlink) or 0 (regular). -/
def tarTypeDigit (k : FKind) : Nat :=
  if k = .dir then 53 else if k = .lnk then 50 else 48

/-- The ustar header before the checksum is filled in, as the
concatenation of its fields (offsets: name 0, mode 100, uid 108,
gid 116, size 124, mtime 136, checksum 148 primed with `"%06o" 0`,
typeflag 155, linkname 157, magic "ustar  " 257, NUL 264, uname 265,
gname 297, zero tail).  Mirrors the sequence of `strncpy`/`sprintf`/
`memcpy` writes of `tar_add` into the zeroed 512-byte block. -/
def tarHeader0 (k : FKind) (mode : Nat) (name : List Nat)
    (content : Option (List Nat)) : List Nat :=
  padTo 100 (name.take 99) ++
  sprintfOct 7 (mode % 32768) ++
  sprintfOct 7 0 ++
  sprintfOct 7 0 ++
  sprintfOct 11 0 ++
  sprintfOct 11 0 ++
  [48, 48, 48, 48, 48, 48, 0] ++
  [32, tarTypeDigit k] ++
  (if k = .lnk then padTo 100 ((content.getD []).take 99)
   else List.replicate 100 0) ++
  [117, 115, 116, 97, 114, 32, 32] ++ [0] ++
  ([114, 111, 111, 116] ++ List.replicate 28 0) ++
  ([114, 111, 111, 116] ++ List.replicate 211 0)

/-- Note: the claim C3 is about size-0 regular files, whose size field is
`"%011o" 0`; `tarHeader0` is only ever used below with `size = 0` for
regular files and with symlinks (whose size is forced to 0), so the size
field is written as `sprintfOct 11 0` directly. -/
def tarChkInt (h : List Nat) : Int :=
  h.foldl (fun (a : Int) (b : Nat) => a + b) 0 +
  (List.range 8).foldl (fun a i => a + (32 - ((h.getD (148 + i) 0 : Nat) : Int))) 0

/-- The finished header: the checksum `"%06o"` write replaces bytes
148..154 of the primed header. -/
def tarHeader (k : FKind) (mode : Nat) (name : List Nat)
    (content : Option (List Nat)) : List Nat :=
  (tarHeader0 k mode name content).take 148 ++
  sprintfOct 6 (tarChkInt (tarHeader0 k mode name content)).toNat ++
  (tarHeader0 k mode name content).drop 155

/-- `tar_add`: appends one 512-byte header and the 512-padded content to
the buffer; returns the buffer unchanged for kinds other than
regular/dir/symlink.  For symlinks the target goes into the linkname
field and `size` is forced to 0.  Bytes of the grown region that the C
code never writes (content absent) are modelled as 0. -/
def tar_add (k : FKind) (mode : Nat) (name : List Nat)
    (content : Option (List Nat)) (size : Nat) (fs : List Nat) : List Nat :=
  if ¬(k = .reg ∨ k = .dir ∨ k = .lnk) then fs
  else
    let size' := if k = .lnk then 0 else size
    let padded := (size' + 511) / 512 * 512
    let data :=
      match content with
      | some c => if size' ≠ 0 then c.take size' ++ List.replicate (padded - size') 0
                  else List.replicate padded 0
      | none => List.replicate padded 0
    fs ++ tarHeader k mode name content ++ data

/-- The additive checksum of a 512-byte header with the 8 checksum-field
bytes (offsets 148..155) counted as ASCII spaces. -/
def sumWithSpaces (h : List Nat) : Nat :=
  (h.take 148).sum + 8 * 32 + (h.drop 156).sum

/-! ## FAT16/32 builder (`fat.c`) -/

/-- The state `fat_open` leaves behind: `fat_numclu`, which FAT width was
chosen (`fat_fat16_1 ≠ NULL` in the source), `fat_spf` (sectors per
FAT), `fat_bpc` (`fs_base[0xD] * 512` with one sector per cluster) and
the allocation cursor `fat_nextcluster`. -/
structure FatSt where
  numclu : Nat
  isFat16 : Bool
  spf : Nat
  bpc : Nat
  nextcluster : Nat
deriving DecidableEq, Repr

/-- `fat_open`: `fat_numclu = (last - start + 1) / SECTOR_PER_CLUSTER`
with `SECTOR_PER_CLUSTER = 1`, so the cluster count is the sector count
of the partition.  Fails with the partition-too-small diagnostic below
4085 clusters, then formats FAT16 below 65525 clusters and FAT32 from
65525 up (boot-sector byte writes that have no bearing on the claims are
not tracked). -/
def fat_open (sectors : Nat) : Except Err FatSt :=
  let numclu := sectors / 1
  if numclu < 4085 then .error .nosize
  else if numclu < 65525 then
    .ok { numclu := numclu, isFat16 := true, spf := (numclu * 2 + 511) / 512,
          bpc := 512, nextcluster := 3 }
  else
    .ok { numclu := numclu, isFat16 := false, spf := numclu * 4 / 512 - 8,
          bpc := 512, nextcluster := 3 }

/-- The UTF-8 to UTF-16 decode loop at the top of `fat_writelfn`
(`for(n=0, u=uc2, s=name; *s; ...)`).  A lead byte of the unsupported
4-byte form is the `ERR_WRITE; exit(1)` path; a truncated multi-byte
sequence would read past the name's terminator and is also mapped to
`none`. -/
def fatUtf8 : Nat → List Nat → Option (List Nat)
  | _, [] => some []
  | 0, _ :: _ => none
  | f + 1, b :: rest =>
    if b &&& 128 = 0 then (fatUtf8 f rest).map (fun t => b :: t)
    else if b &&& 32 = 0 then
      if rest = [] then none
      else
        (fatUtf8 f (rest.drop 1)).map (fun t =>
          (((b &&& 0x1F) <<< 6) ||| (rest.headD 0 &&& 0x3F)) :: t)
    else if b &&& 16 = 0 then
      if rest.length < 2 then none
      else
        (fatUtf8 f (rest.drop 2)).map (fun t =>
          (((b &&& 0xF) <<< 12) ||| ((rest.getD 0 0 &&& 0x3F) <<< 6) |||
            (rest.getD 1 0 &&& 0x3F)) :: t)
    else none

/-- Lowercase hex digits of `v`, most significant first (`printf "%x"`),
fuel-structured like `octDigsAux`. -/
def hexDigsAux : Nat → Nat → List Nat
  | 0, v => [v % 16]
  | f + 1, v => if v < 16 then [v] else hexDigsAux f (v / 16) ++ [v % 16]

def hexChar (d : Nat) : Nat := if d < 10 then 48 + d else 87 + d

/-- `sprintf(sfn, "~%07xLFN", fat_lfncnt)`: the synthesized 8.3 alias. -/
def sfnOf (cnt : Nat) : List Nat :=
  [126] ++ List.replicate (7 - (hexDigsAux cnt cnt).length) 48 ++
  (hexDigsAux cnt cnt).map hexChar ++ [76, 70, 78]

/-- The rotate-and-add VFAT alias checksum over the 11 alias bytes
(`c = (((c & 1) << 7) | ((c & 0xfe) >> 1)) + sfn[i]` on an
`unsigned char`). -/
def fatChk (l : List Nat) : Nat :=
  l.foldl (fun c b => ((((c &&& 1) <<< 7) ||| ((c &&& 0xfe) >>> 1)) + b) % 256) 0

/-- One 32-byte LFN record as `fat_writelfn` lays it out: sequence byte,
UTF-16 units 0-4 little-endian at offsets 1..10, attribute 0x0F at
offset 11, zero type byte, alias checksum at offset 13, units 5-10 at
offsets 14..25, zero cluster-low field at 26..27, units 11-12 at offsets
28..31 (the underlying directory bytes start out zeroed). -/
def lfnRec (seq chk : Nat) (u : List Nat) : List Nat :=
  [seq,
   u.getD 0 0 % 256, u.getD 0 0 / 256 % 256,
   u.getD 1 0 % 256, u.getD 1 0 / 256 % 256,
   u.getD 2 0 % 256, u.getD 2 0 / 256 % 256,
   u.getD 3 0 % 256, u.getD 3 0 / 256 % 256,
   u.getD 4 0 % 256, u.getD 4 0 / 256 % 256,
   0xF, 0, chk,
   u.getD 5 0 % 256, u.getD 5 0 / 256 % 256,
   u.getD 6 0 % 256, u.getD 6 0 / 256 % 256,
   u.getD 7 0 % 256, u.getD 7 0 / 256 % 256,
   u.getD 8 0 % 256, u.getD 8 0 / 256 % 256,
   u.getD 9 0 % 256, u.getD 9 0 / 256 % 256,
   u.getD 10 0 % 256, u.getD 10 0 / 256 % 256,
   0, 0,
   u.getD 11 0 % 256, u.getD 11 0 / 256 % 256,
   u.getD 12 0 % 256, u.getD 12 0 / 256 % 256]

/-- The 32-byte short-name record written after the LFN chain: 11 name
bytes, attribute 0x10 for directories, mtime word at offsets 0xE and
0x16, cluster number split over offsets 0x14/0x15 and 0x1A/0x1B, file
size at 0x1C..0x1F for non-directories (the date word the source
computes into `i` on its last line is never stored). -/
def fatShortRec (nm11 : List Nat) (typeDir : Bool) (size clu timeW : Nat) :
    List Nat :=
  nm11.take 11 ++
  [if typeDir then 0x10 else 0, 0, 0] ++
  [timeW % 256, timeW / 256 % 256] ++
  [0, 0, 0, 0] ++
  [clu / 65536 % 256, clu / 16777216 % 256] ++
  [timeW % 256, timeW / 256 % 256] ++
  [0, 0] ++
  [clu % 256, clu / 256 % 256] ++
  (if typeDir then [0, 0, 0, 0]
   else [size % 256, size / 256 % 256, size / 65536 % 256,
         size / 16777216 % 256])

/-- `fat_writelfn` viewed as the sequence of 32-byte records it emits
into the directory region, in emission order (the `fat_newclu` calls at
cluster boundaries relocate where consecutive records land but never
change their bytes or order, so they are not tracked here).  A name
starting with '.' gets only a space-padded short record; otherwise
`ceil(n/13)` LFN records are emitted while `n` counts down, the first
carrying `0x40 | n` and the last sequence number 1, each record holding
the alias checksum and the name chunks in reverse order, and then the
short record. -/
def fat_writelfn (name : List Nat) (typeDir : Bool)
    (size lfncnt nextcluster cluArg timeW : Nat) :
    Option (List (List Nat)) :=
  let clu0 := if cluArg = 0 then nextcluster else cluArg
  let clu := if clu0 < 3 then 0 else clu0
  if name.headD 0 = dotB then
    some [fatShortRec ((name ++ List.replicate (11 - name.length) 32).take 11)
      typeDir size clu timeW]
  else
    match fatUtf8 name.length name with
    | none => none
    | some u =>
      let sfn := sfnOf lfncnt
      let c := fatChk (sfn.take 11)
      let n5 := (u.length + 12) / 13
      let upad := u ++ List.replicate (n5 * 13 - u.length) 0
      let recs := (List.range n5).reverse.map (fun jj =>
        lfnRec ((if jj = n5 - 1 then 0x40 else 0) ||| (jj + 1)) c
          ((upad.drop (jj * 13)).take 13))
      some (recs ++ [fatShortRec (sfn.take 11) typeDir size clu timeW])

/-! ## LeanFS builder (`lean.c`) -/

/-- The LeanFS allocator state.  The source reads and writes bit `o & 7`
of byte `(g * (1 << LEAN_LOG_BANDSIZE) + (!g ? bitmap_start : 0)) * 512
+ o / 8`, i.e. bit `o` of band `g`'s bitmap; by the format (and by
`len_open`'s initialisation, which marks the band-0 metadata sectors and
each band's own bitmap sector this way) that bit denotes sector
`g * 4096 + o`, and bits of distinct bands live in distinct sectors, so
the bitmap is modelled as one `Nat → Bool` over global sector numbers.
`LEAN_LOG_BANDSIZE = 12`, so `LEAN_BITMAPSIZE = 1` sector per band. -/
structure LenSt where
  sectorCount : Nat
  freeSectors : Nat
  bitmapStart : Nat
  bitmap : Nat → Bool
  nextblk : Nat

/-- The skip loop at the top of `len_alloc_blk`:
`while(len_nextblk < sector_count && <bit (g,o) set>) { o++; len_nextblk++;
if(o >= 4096) { o = 0; g++; len_nextblk += LEAN_BITMAPSIZE; } }`.
Each iteration increases `len_nextblk`, so `sectorCount` steps of fuel
are always enough for the loop to reach its exit condition. -/
def lenSkip (sc : Nat) (bm : Nat → Bool) :
    Nat → Nat → Nat → Nat → Nat × Nat × Nat
  | 0, g, o, nb => (g, o, nb)
  | f + 1, g, o, nb =>
    if nb < sc ∧ bm (g * 4096 + o) then
      if o + 1 ≥ 4096 then lenSkip sc bm f (g + 1) 0 (nb + 1 + 1)
      else lenSkip sc bm f g (o + 1) (nb + 1)
    else (g, o, nb)

/-- `len_alloc_blk`: computes `g = len_nextblk / 4096`,
`o = len_nextblk % 4096`, skips over set bits, errors when fewer than
two sectors remain ahead of the cursor or the free counter is exhausted,
otherwise sets bit `(g, o)` — sector `g * 4096 + o` — decrements
`free_sector_count`, returns `len_nextblk` post-incremented, and hops
the cursor over the next band's bitmap at a band boundary. -/
def len_alloc_blk (s : LenSt) : Except Err (Nat × LenSt) :=
  let t := lenSkip s.sectorCount s.bitmap s.sectorCount
    (s.nextblk / 4096) (s.nextblk % 4096) s.nextblk
  let g := t.1
  let o := t.2.1
  let nb := t.2.2
  if nb + 1 ≥ s.sectorCount ∨ s.freeSectors < 1 then .error .toobig
  else
    let marked := g * 4096 + o
    .ok (nb,
      { s with
        bitmap := fun x => if x = marked then true else s.bitmap x
        freeSectors := s.freeSectors - 1
        nextblk := if (nb + 1) % 4096 = 0 then nb + 1 + 1 else nb + 1 })

/-- A reachable LeanFS build state on an 8192-sector (two-band)
partition: `len_open` marks band-0 sectors 0..33 (loader, superblock at
32, bitmap at 33), the backup superblock sector 4095 and band 1's own
bitmap sector 4096; sectors 34..4094 have since been allocated to file
data, leaving the cursor at 4095 with 4095 free sectors. -/
def lenCrossSt : LenSt :=
  { sectorCount := 8192
    freeSectors := 4095
    bitmapStart := 33
    bitmap := fun x => decide (x ≤ 4096)
    nextblk := 4095 }

/-! ## ext2 builder (`ext2.c`)

`SECSIZE = 4096`, blocks per group `SECSIZE << 3 = 32768`, 32-byte group
descriptors (so at most `4096/32 - 1 = 127` groups), 128-byte inodes.
Bit `o` of group `g`'s block bitmap (block `32768*g + 2`) denotes block
`32768*g + o`; bit `o` of its inode bitmap denotes inode index
`g*inodes_per_group + o` — distinct groups use distinct bitmap blocks,
so both are modelled as one `Nat → Bool` over global indices.  The inode
table entry for inode number `ino` lives at per-group index
`(ino-1) % inodes_per_group` of group `(ino-1) / inodes_per_group`,
i.e. global index `ino - 1`.  Directory blocks hold variable-length
records; they are modelled as lists of records tagged with their byte
offset inside the block, unwritten bytes reading as the all-zero record
(the buffer is zeroed at `ext_open` and blocks are never freed). -/

structure ExtInode where
  mode : Nat := 0
  uid : Nat := 0
  size : Nat := 0
  atime : Nat := 0
  ctime : Nat := 0
  mtime : Nat := 0
  gid : Nat := 0
  linksCount : Nat := 0
  blocks : Nat := 0
  iBlock : List Nat := List.replicate 15 0
deriving DecidableEq, Repr, Inhabited

/-- One `ext_dirent_t` record together with the byte offset inside its
directory block at which it was written. -/
structure DirRec where
  off : Nat
  inode : Nat
  recLen : Nat
  nameLen : Nat
  ftype : Nat
  name : List Nat
deriving DecidableEq, Repr, Inhabited

/-- Typed views of a 4096-byte block: zero-filled fresh block, directory
records, an indirect pointer block (`uint32_t[1024]`), or raw file
bytes.  Each block of the image is only ever used under one view. -/
inductive ExtBlk where
  | emptyB
  | dirB (recs : List DirRec)
  | indB (ptrs : List Nat)
  | bytesB (bs : List Nat)
deriving DecidableEq, Repr, Inhabited

def blkDir : ExtBlk → List DirRec
  | .dirB r => r
  | _ => []

/-- Reading a block as a `uint32_t[1024]` indirect-pointer array; a
fresh (zeroed) block reads as all-zero pointers. -/
def blkInd : ExtBlk → List Nat
  | .indB l => l
  | _ => List.replicate 1024 0

/-- The all-zero directory record that unwritten bytes decode to. -/
def zeroRec (off : Nat) : DirRec :=
  { off := off, inode := 0, recLen := 0, nameLen := 0, ftype := 0, name := [] }

def recAt (recs : List DirRec) (off : Nat) : DirRec :=
  (recs.find? (fun r => r.off = off)).getD (zeroRec off)

/-- Writing a record at a byte offset: overwrite the record stored there
or append. -/
def putRec (recs : List DirRec) (r : DirRec) : List DirRec :=
  if recs.any (fun x => x.off = r.off) then
    recs.map (fun x => if x.off = r.off then r else x)
  else recs ++ [r]

def updF {α : Type} (f : Nat → α) (i : Nat) (v : α) : Nat → α :=
  fun x => if x = i then v else f x

/-- The global mutable state of `ext2.c`: superblock counters, group
descriptor counters, both bitmaps, the cursors, `ext_root`,
`ext_lastdir` (as block/offset), the inode table and the data blocks. -/
structure ExtSt where
  blocksCount : Nat
  inodesCount : Nat
  inodesPerGroup : Nat
  freeBlocks : Nat
  freeInodes : Nat
  bgFreeBlocks : Nat → Nat
  bgFreeInodes : Nat → Nat
  bgUsedDirs : Nat → Nat
  blockBitmap : Nat → Bool
  inodeBitmap : Nat → Bool
  nextblk : Nat
  nextinode : Nat
  blkgap : Nat
  rootIno : Nat
  lastdir : Option (Nat × Nat)
  inodes : Nat → ExtInode
  blocks : Nat → ExtBlk

/-- `ext_alloc_blk`: bounds/free-count guard (`ERR_TOOBIG`), mark bit
`o = nextblk % 32768` of group `g = nextblk / 32768` — block
`g*32768 + o` — decrement the group and superblock free counters,
return `ext_nextblk` post-incremented, hopping over the next group's
metadata (`ext_blkgap`) at a group boundary. -/
def ext_alloc_blk (s : ExtSt) : Except Err (Nat × ExtSt) :=
  let g := s.nextblk / 32768
  let o := s.nextblk % 32768
  if s.nextblk + 1 ≥ s.blocksCount ∨ s.freeBlocks < 1 then .error .toobig
  else
    .ok (s.nextblk,
      { s with
        blockBitmap := fun x => if x = g * 32768 + o then true else s.blockBitmap x
        bgFreeBlocks := updF s.bgFreeBlocks g (s.bgFreeBlocks g - 1)
        freeBlocks := s.freeBlocks - 1
        nextblk := if (s.nextblk + 1) % 32768 = 0 then s.nextblk + 1 + s.blkgap
                   else s.nextblk + 1 })

/-- `ext_alloc_inode`: guard (`ERR_TOOMANY`), mark the inode bitmap bit,
fill the inode record (mode gains 0755 when no permission bits are set),
bump `bg_used_dirs_count` for directories, decrement free counters and
return the post-incremented `ext_nextinode` — inode numbers are 1-based
and the record lands at global index `ino - 1`. -/
def ext_alloc_inode (s : ExtSt) (mode size uid gid t : Nat) :
    Except Err (Nat × ExtSt) :=
  let g := s.nextinode / s.inodesPerGroup
  let o := s.nextinode % s.inodesPerGroup
  if s.nextinode + 1 ≥ s.inodesCount ∨ s.freeInodes < 1 then .error .toomany
  else
    let node : ExtInode :=
      { mode := mode ||| (if mode % 4096 = 0 then 0o755 else 0)
        size := size
        blocks := (size + 511) / 512
        uid := uid, gid := gid
        atime := t, ctime := t, mtime := t }
    .ok (s.nextinode + 1,
      { s with
        inodeBitmap := fun x => if x = g * s.inodesPerGroup + o then true
                                else s.inodeBitmap x
        inodes := updF s.inodes s.nextinode node
        bgUsedDirs := if mode &&& 0xF000 = 0x4000 then
            updF s.bgUsedDirs g (s.bgUsedDirs g + 1)
          else s.bgUsedDirs
        bgFreeInodes := updF s.bgFreeInodes g (s.bgFreeInodes g - 1)
        freeInodes := s.freeInodes - 1
        nextinode := s.nextinode + 1 })

/-- The double-indirect tail of `ext_add_to_inode`: walk `dind[j]` for
`j < 1024`, allocating missing indirect blocks, and place `blk` in the
first free slot; `ERR_TOOBIG` when the double-indirect tree is full. -/
def extAddDD : Nat → ExtSt → Nat → Nat → Nat → Except Err ExtSt
  | 0, _, _, _, _ => .error .toobig
  | f + 1, s, dind, blk, j =>
    if j ≥ 1024 then .error .toobig
    else do
      let dptrs := blkInd (s.blocks dind)
      let (s, indj) ←
        if dptrs.getD j 0 = 0 then do
          let (k, s1) ← ext_alloc_blk s
          pure ({ s1 with
            blocks := updF s1.blocks dind
              (.indB ((blkInd (s1.blocks dind)).set j k)) }, k)
        else pure (s, dptrs.getD j 0)
      let ptrs := blkInd (s.blocks indj)
      match (List.range 1024).find? (fun i => ptrs.getD i 0 = 0) with
      | some i => .ok { s with blocks := updF s.blocks indj (.indB (ptrs.set i blk)) }
      | none => extAddDD f s dind blk (j + 1)

/-- `ext_add_to_inode`: place `blk` in the first free direct slot
`i_block[0..11]`, else in the single-indirect block (allocated on
demand at `i_block[12]`), else in the double-indirect tree at
`i_block[13]`. -/
def ext_add_to_inode (s : ExtSt) (ino blk : Nat) : Except Err ExtSt := do
  let idx := ino - 1
  match (List.range 12).find? (fun i => (s.inodes idx).iBlock.getD i 0 = 0) with
  | some i =>
    let node := s.inodes idx
    .ok { s with
      inodes :=
        updF s.inodes idx { node with iBlock := node.iBlock.set i blk } }
  | none => do
    let (s, ind) ←
      if (s.inodes idx).iBlock.getD 12 0 = 0 then do
        let (k, s1) ← ext_alloc_blk s
        let node := s1.inodes idx
        pure ({ s1 with
          inodes :=
            updF s1.inodes idx
              { node with iBlock := node.iBlock.set 12 k } }, k)
      else pure (s, (s.inodes idx).iBlock.getD 12 0)
    let ptrs := blkInd (s.blocks ind)
    match (List.range 1024).find? (fun i => ptrs.getD i 0 = 0) with
    | some i => .ok { s with blocks := updF s.blocks ind (.indB (ptrs.set i blk)) }
    | none => do
      let (s, dind) ←
        if (s.inodes idx).iBlock.getD 13 0 = 0 then do
          let (k, s1) ← ext_alloc_blk s
          let node := s1.inodes idx
          pure ({ s1 with
          inodes :=
            updF s1.inodes idx
              { node with iBlock := node.iBlock.set 13 k } }, k)
        else pure (s, (s.inodes idx).iBlock.getD 13 0)
      extAddDD 1025 s dind blk 0

/-- Update the `rec_len` of the record at block/offset `last` (the
`((ext_dirent_t*)ext_lastdir)->rec_len = dir - ext_lastdir` write). -/
def updRecLen (s : ExtSt) (last : Nat × Nat) (v : Nat) : ExtSt :=
  { s with
    blocks :=
      updF s.blocks last.1
        (.dirB ((blkDir (s.blocks last.1)).map
          (fun x => if x.off = last.2 then { x with recLen := v } else x))) }

/-- `ext_add_dirent`: bump the target inode's link count (when `ino` is
non-zero), close the previous record's `rec_len` chain — unless the new
record would straddle a 4096-byte sector boundary, in which case a fresh
directory block is allocated and attached to `toinode` — then write the
record with `rec_len` reaching the end of its sector and return the
advanced cursor `dir + ((len + 3) & ~3) + 8`. -/
def ext_add_dirent (s : ExtSt) (dir : Option (Nat × Nat))
    (toinode ino ftype : Nat) (nm : List Nat) (len : Nat) :
    Except Err (ExtSt × (Nat × Nat)) := do
  let s :=
    if ino ≠ 0 then
      let idx := ino - 1
      { s with
        inodes :=
          updF s.inodes idx
            { s.inodes idx with
              linksCount := (s.inodes idx).linksCount + 1 } }
    else s
  let (dir, s) :=
    match s.lastdir, dir with
    | some last, some d =>
      if (d.1 * 4096 + d.2) / 4096 ≠ (d.1 * 4096 + d.2 + len + 8) / 4096 then
        (none, s)
      else (some d, updRecLen s last ((d.1 * 4096 + d.2) - (last.1 * 4096 + last.2)))
    | _, _ => (dir, s)
  let (s, d) ← match dir with
    | none => do
        let (k, s1) ← ext_alloc_blk s
        let s2 ← ext_add_to_inode s1 toinode k
        pure (s2, (k, 0))
    | some d => pure (s, d)
  let r : DirRec :=
    { off := d.2, inode := ino, recLen := 4096 - (d.1 * 4096 + d.2) % 4096,
      nameLen := len, ftype := ftype,
      name := if len ≠ 0 then nm.take len else [] }
  let s := { s with
    blocks := updF s.blocks d.1 (.dirB (putRec (blkDir (s.blocks d.1)) r))
    lastdir := some d }
  pure (s, (d.1, d.2 + (len + 3) / 4 * 4 + 8))

/-- Outcome of scanning one directory block in `ext_add`'s `again:`
loop: descend into a matched subdirectory, a placement cursor for the
new entry (with the final `ext_lastdir`), or a sector overflow that
continues with the next `i_block` slot (`k++; goto again`), carrying the
running byte count `i` and `ext_lastdir` along. -/
inductive ScanOut where
  | descend (ino : Nat)
  | place (cursor : Option (Nat × Nat)) (last : Option (Nat × Nat))
  | next (i : Nat) (last : Option (Nat × Nat))

/-- The inner `while(((ext_dirent_t*)dir_entry)->inode)` walk of one
directory block: stop at a free record (insert there), descend on a
name match, or step by `rec_len`, breaking out early — with the cursor
advanced by the aligned size of the current record — once `i + rec_len`
reaches the directory's `i_size`. -/
def extScan : Nat → List DirRec → Nat → Nat → List Nat → Nat → Nat → Nat →
    Option (Nat × Nat) → ScanOut
  | 0, _, _, _, _, _, _, _, last => .place none last
  | f + 1, recs, blkNo, inoSize, fn, comp, i, off, last =>
    let r := recAt recs off
    if r.inode ≠ 0 then
      if r.nameLen = comp ∧ r.name = fn.take comp then .descend r.inode
      else
        let last := some (blkNo, off)
        if i + r.recLen ≥ inoSize then
          .place (some (blkNo, off + (r.nameLen + 3) / 4 * 4 + 8)) last
        else if off + r.recLen ≥ 4096 then .next (i + r.recLen) last
        else extScan f recs blkNo inoSize fn comp (i + r.recLen) (off + r.recLen) last
    else .place (some (blkNo, off)) last

/-- Result of the `again:` path-resolution loop of `ext_add`: the state
(with `ext_lastdir`), the directory inode the entry goes into, the
insert cursor (`NULL` when a fresh block is needed), the remaining path
suffix `fn` with its component length, and the final value of the block
index `k` — which the symlink branch later reuses as a byte count. -/
structure WalkOut where
  st : ExtSt
  parent : Nat
  cursor : Option (Nat × Nat)
  fn : List Nat
  comp : Nat
  kIdx : Nat

/-- The `again:` loop of `ext_add`: `ERR_TOOMANY` when `k > 11`
(the FIXME in the source: indirect directory data is not handled), a
`NULL` cursor when `i_block[k]` is empty, otherwise scan that block. -/
def extFind : Nat → ExtSt → Nat → List Nat → Nat → Nat → Nat →
    Except Err WalkOut
  | 0, _, _, _, _, _, _ => .error .toobig
  | f + 1, s, parent, fn, comp, i, k =>
    if k > 11 then .error .toomany
    else
      let node := s.inodes (parent - 1)
      if node.iBlock.getD k 0 = 0 then
        .ok ⟨{ s with lastdir := none }, parent, none, fn, comp, k⟩
      else
        let blkNo := node.iBlock.getD k 0
        match extScan 4096 (blkDir (s.blocks blkNo)) blkNo node.size fn comp
          i 0 s.lastdir with
        | .descend ino =>
          let fn2 := fn.drop (comp + 1)
          extFind f { s with lastdir := none } ino fn2 (compLen fn2) 0 0
        | .place cursor last =>
          .ok ⟨{ s with lastdir := last }, parent, cursor, fn, comp, k⟩
        | .next i2 last =>
          extFind f { s with lastdir := last } parent fn comp i2 (k + 1)

/-- The regular-file content loop of `ext_add`: per 4096-byte chunk,
allocate a block, copy `min(size, 4096)` bytes into it and attach it;
`size` strictly decreases so `size` is enough fuel. -/
def extWrite : Nat → ExtSt → Nat → List Nat → Nat → Except Err ExtSt
  | 0, s, _, _, size => if size = 0 then .ok s else .error .toobig
  | f + 1, s, ino, content, size =>
    if size = 0 then .ok s
    else do
      let kk := if size > 4096 then 4096 else size
      let (b, s) ← ext_alloc_blk s
      let s := { s with blocks := updF s.blocks b (.bytesB (content.take kk)) }
      let s ← ext_add_to_inode s ino b
      extWrite f s ino (content.drop 4096) (size - kk)

/-- `ext_add`.  Silent no-op for "."/".." leaf names and for kinds
other than regular/dir/symlink/char/block; otherwise allocates the
inode, resolves the path, enters the directory record, then per kind:
directories get "." and ".." seeded, device specials store `st_rdev` in
`i_block[0]`, symlinks allocate one block and copy `k` bytes of the
target into it (`k` being the leftover block index of the resolution
loop — the source passes `k`, not `size`, to `memcpy`), regular files
get their content written in 4096-byte chunks. -/
def ext_add (s : ExtSt) (kind : FKind) (perm uid gid mtime rdev : Nat)
    (name : List Nat) (content : List Nat) (size : Nat) :
    Except Err ExtSt := do
  let fn := leafOf name
  if fn = [dotB] ∨ fn = [dotB, dotB] then pure s
  else if ¬(kind = .reg ∨ kind = .dir ∨ kind = .lnk ∨ kind = .chr ∨
      kind = .blkdev) then pure s
  else do
    let t : Nat :=
      if kind = .dir then 2 else if kind = .lnk then 7
      else if kind = .chr then 3 else if kind = .blkdev then 4 else 1
    let (n, s) ← ext_alloc_inode s (stMode kind perm) size uid gid mtime
    let s := { s with lastdir := none }
    let w ← extFind ((name.length + 1) * 13) s s.rootIno name (compLen name) 0 0
    let (s, _) ← ext_add_dirent w.st w.cursor w.parent n t w.fn w.comp
    if kind = .dir then do
      let (s, c) ← ext_add_dirent s none n n 2 [dotB] 1
      let (s, _) ← ext_add_dirent s (some c) n w.parent 2 [dotB, dotB] 2
      pure s
    else if kind = .chr ∨ kind = .blkdev then
      let idx := n - 1
      let node := s.inodes idx
      pure { s with
        inodes :=
          updF s.inodes idx { node with iBlock := node.iBlock.set 0 rdev } }
    else if kind = .lnk then
      if size ≥ 4096 then .error .toobig
      else do
        let (b, s) ← ext_alloc_blk s
        let s := { s with blocks := updF s.blocks b (.bytesB (content.take w.kIdx)) }
        ext_add_to_inode s n b
    else
      extWrite size s n content size

/-- One iteration of `ext_open`'s block-group setup loop (group `i`,
with `k = 32768*i` blocks and `m = inodes_per_group*i` inodes handled so
far): size the bitmap (`j` blocks), clamp this group's inode count `o`,
pre-mark the `l = 3 + j + ceil(o*128/4096)` metadata blocks in the block
bitmap, initialise the allocation cursor and `ext_blkgap` on the first
pass, and set the group free counters. -/
def extOpenGroup (numblk : Nat) (acc : ExtSt × Nat × Nat) (i : Nat) :
    ExtSt × Nat × Nat :=
  let s := acc.1
  let k := acc.2.1
  let m := acc.2.2
  let j0 := ((32768 + 7) / 8 + 4096 - 1) / 4096
  let j := if k + j0 > numblk then numblk - k else j0
  let o1 := if m + s.inodesPerGroup > s.inodesCount then s.inodesCount - m
            else s.inodesPerGroup
  let o := if o1 > s.freeInodes then s.freeInodes else o1
  let l := 3 + j + (o * 128 + 4096 - 1) / 4096
  let s := { s with
    blockBitmap := fun x =>
      if 32768 * i ≤ x ∧ x < 32768 * i + l then true else s.blockBitmap x }
  let s := if s.nextblk = 0 then { s with nextblk := l, blkgap := l } else s
  let bgFree := (if numblk - k > 32768 then 32768 else numblk - k) - l
  let s := { s with
    bgFreeInodes := updF s.bgFreeInodes i o
    bgFreeBlocks := updF s.bgFreeBlocks i bgFree
    freeBlocks := s.freeBlocks + bgFree }
  (s, k + 32768, m + s.inodesPerGroup)

def extName_lf : List Nat := [108, 111, 115, 116, 43, 102, 111, 117, 110, 100]

/-- `ext_open` for a partition of `numblk` 4096-byte blocks (the source
computes `numblk` from the partition's LBA range; build timestamps are
taken as 0 and superblock constants that no claim touches are not
tracked).  Guards: fewer than 8 blocks is the partition-too-small
diagnostic, more than 127 groups is `ERR_TOOMANY`.  Then: size the
groups, allocate the 11 reserved inodes (bad blocks, root directory,
acl index, acl data, loader, undelete, resize, journal, exclude,
replica, lost+found), and populate the root directory (".", "..",
"lost+found") and lost+found (".", ".." plus three empty spare blocks). -/
def ext_open (numblk : Nat) : Except Err ExtSt := do
  if numblk < 8 then .error .nosize
  else do
    let numbg0 := numblk / 32768
    let numbg := if numbg0 < 1 then 1 else numbg0
    if numbg > 4096 / 32 - 1 then .error .toomany
    else do
      let ipg0 := numblk / numbg
      let ipg := if ipg0 > 32768 then 32768 else ipg0
      let ic0 := ipg * numbg
      let ic := if ic0 > numblk then numblk else ic0
      let s0 : ExtSt :=
        { blocksCount := numblk, inodesCount := ic, inodesPerGroup := ipg
          freeBlocks := 0, freeInodes := ic
          bgFreeBlocks := fun _ => 0, bgFreeInodes := fun _ => 0
          bgUsedDirs := fun _ => 0
          blockBitmap := fun _ => false, inodeBitmap := fun _ => false
          nextblk := 0, nextinode := 0, blkgap := 0, rootIno := 0
          lastdir := none
          inodes := fun _ => default, blocks := fun _ => .emptyB }
      let s := ((List.range numbg).foldl (extOpenGroup numblk) (s0, 0, 0)).1
      let (_, s) ← ext_alloc_inode s 0x8000 0 0 0 0
      let (root, s) ← ext_alloc_inode s 0x4000 4096 0 0 0
      let (_, s) ← ext_alloc_inode s 0x8000 0 0 0 0
      let (_, s) ← ext_alloc_inode s 0x8000 0 0 0 0
      let (_, s) ← ext_alloc_inode s 0x8000 0 0 0 0
      let (_, s) ← ext_alloc_inode s 0x8000 0 0 0 0
      let (_, s) ← ext_alloc_inode s 0x8000 0 0 0 0
      let (_, s) ← ext_alloc_inode s 0x8000 0 0 0 0
      let (_, s) ← ext_alloc_inode s 0x8000 0 0 0 0
      let (_, s) ← ext_alloc_inode s 0x8000 0 0 0 0
      let (lf, s) ← ext_alloc_inode s (0x4000 + 0o700) (4 * 4096) 0 0 0
      let s := { s with rootIno := root }
      let (s, c1) ← ext_add_dirent s none root root 2 [dotB] 1
      let (s, c2) ← ext_add_dirent s (some c1) root root 2 [dotB, dotB] 2
      let (s, _) ← ext_add_dirent s (some c2) root lf 2 extName_lf 10
      let (s, c3) ← ext_add_dirent s none lf lf 2 [dotB] 1
      let (s, _) ← ext_add_dirent s (some c3) lf root 2 [dotB, dotB] 2
      let (s, _) ← ext_add_dirent s none lf 0 0 [] 0
      let (s, _) ← ext_add_dirent s none lf 0 0 [] 0
      let (s, _) ← ext_add_dirent s none lf 0 0 [] 0
      pure s

/-- The record list of the root directory's first data block. -/
def extRootRecs (s : ExtSt) : List DirRec :=
  blkDir (s.blocks ((s.inodes (s.rootIno - 1)).iBlock.getD 0 0))

/-- The record list of inode 11's (lost+found's) first data block. -/
def extLfRecs (s : ExtSt) : List DirRec :=
  blkDir (s.blocks ((s.inodes 10).iBlock.getD 0 0))

/-- Observable outcome of `ext_open`: `(nextinode, freeInodes, nextblk,
freeBlocks, root directory names, lost+found names)`, or `none` on a
fatal error. -/
def extOpenView (numblk : Nat) :
    Option (Nat × Nat × Nat × Nat × List (List Nat) × List (List Nat)) :=
  match ext_open numblk with
  | .error _ => none
  | .ok s => some (s.nextinode, s.freeInodes, s.nextblk, s.freeBlocks,
      (extRootRecs s).map (fun r => r.name),
      (extLfRecs s).map (fun r => r.name))

/-! ## Minix3 builder (`minix.c`)

`DEFAULT_BLOCK_SIZE = 4096`, `direct_t` is 4 + `MFS_DIRSIZ = 60` = 64
bytes, so `NR_DIR_ENTRIES = 4096/64 = 64` records per zone;
`NR_DZONES = 7` direct zone slots, slot 7 single-indirect, slot 8
double-indirect, `INDIRECTS = 4096/4 = 1024`.  Inode records are keyed
by `ino - 1`; the inode bitmap is keyed by inode number and the zone
bitmap by `z - mnx_zoff`, exactly the bit numbers `mnx_insert_bit`
receives (the two maps live in disjoint block ranges).  Zones are typed
like ext2 blocks; a fresh zone reads as 64 all-zero directory records
or 1024 zero pointers. -/

structure MnxIno where
  mode : Nat := 0
  nlinks : Nat := 0
  uid : Nat := 0
  gid : Nat := 0
  size : Nat := 0
  atime : Nat := 0
  mtime : Nat := 0
  ctime : Nat := 0
  iZone : List Nat := List.replicate 10 0
deriving DecidableEq, Repr, Inhabited

inductive MnxZone where
  | emptyZ
  | dirZ (slots : List (Nat × List Nat))
  | indZ (ptrs : List Nat)
  | rawZ (bs : List Nat)
deriving DecidableEq, Repr, Inhabited

/-- A zone read as `direct_t[64]` (zeroed memory = 64 free records with
all-zero names). -/
def zoneDir : MnxZone → List (Nat × List Nat)
  | .dirZ s => s
  | _ => List.replicate 64 (0, List.replicate 60 0)

/-- A zone read as `zone_t[1024]`. -/
def zoneInd : MnxZone → List Nat
  | .indZ p => p
  | _ => List.replicate 1024 0

structure MnxSt where
  ninodes : Nat
  nextZone : Nat
  nextInode : Nat
  zoff : Nat
  rootIno : Nat
  inodeBm : Nat → Bool
  zoneBm : Nat → Bool
  inodes : Nat → MnxIno
  zones : Nat → MnxZone

/-- `mnx_alloc_inode`: post-increment `mnx_next_inode`, `ERR_TOOMANY`
past `s_ninodes`, write mode/uid/gid into the table entry and set the
inode-bitmap bit (`mnx_insert_bit((block_t)2, num)`). -/
def mnx_alloc_inode (s : MnxSt) (mode usrid grpid : Nat) :
    Except Err (Nat × MnxSt) :=
  let num := s.nextInode
  if num > s.ninodes then .error .toomany
  else
    .ok (num, { s with
      nextInode := num + 1
      inodes := updF s.inodes (num - 1)
        { s.inodes (num - 1) with mode := mode, uid := usrid, gid := grpid }
      inodeBm := fun x => if x = num then true else s.inodeBm x })

/-- `mnx_alloc_zone`: post-increment `mnx_next_zone` and set zone-bitmap
bit `z - mnx_zoff`. -/
def mnx_alloc_zone (s : MnxSt) : Nat × MnxSt :=
  (s.nextZone, { s with
    nextZone := s.nextZone + 1
    zoneBm := fun x => if x = s.nextZone - s.zoff then true else s.zoneBm x })

def mnx_incr_link (s : MnxSt) (n : Nat) : MnxSt :=
  { s with
    inodes :=
      updF s.inodes (n - 1)
        { s.inodes (n - 1) with nlinks := (s.inodes (n - 1)).nlinks + 1 } }

def mnx_incr_size (s : MnxSt) (n count : Nat) : MnxSt :=
  { s with
    inodes :=
      updF s.inodes (n - 1)
        { s.inodes (n - 1) with size := (s.inodes (n - 1)).size + count } }

/-- The double-indirect tail of `mnx_add_zone`. -/
def mnxAddZoneDD : Nat → MnxSt → Nat → Nat → Nat → Except Err MnxSt
  | 0, _, _, _, _ => .error .toobig
  | f + 1, s, dind, z, j =>
    if j ≥ 1024 then .error .toobig
    else
      let dptrs := zoneInd (s.zones dind)
      let (s, indj) :=
        if dptrs.getD j 0 = 0 then
          let (k, s1) := mnx_alloc_zone s
          ({ s1 with
            zones :=
              updF s1.zones dind
                (.indZ ((zoneInd (s1.zones dind)).set j k)) }, k)
        else (s, dptrs.getD j 0)
      let ptrs := zoneInd (s.zones indj)
      match (List.range 1024).find? (fun i => ptrs.getD i 0 = 0) with
      | some i => .ok { s with zones := updF s.zones indj (.indZ (ptrs.set i z)) }
      | none => mnxAddZoneDD f s dind z (j + 1)

/-- `mnx_add_zone`: grow the file by `bytes`, stamp `mtime`, then place
zone `z` in the first free direct slot, else the single-indirect zone
(slot 7, allocated on demand), else the double-indirect tree (slot 8);
`ERR_TOOBIG` when even that is full. -/
def mnx_add_zone (s : MnxSt) (ino z bytes mtime : Nat) : Except Err MnxSt := do
  let idx := ino - 1
  let p := { s.inodes idx with
    size := (s.inodes idx).size + bytes, mtime := mtime }
  let s := { s with inodes := updF s.inodes idx p }
  match (List.range 7).find? (fun i => p.iZone.getD i 0 = 0) with
  | some i =>
    .ok { s with
      inodes := updF s.inodes idx { p with iZone := p.iZone.set i z } }
  | none => do
    let (s, ind) :=
      if p.iZone.getD 7 0 = 0 then
        let (k, s1) := mnx_alloc_zone s
        let p1 := s1.inodes idx
        ({ s1 with
          inodes :=
            updF s1.inodes idx { p1 with iZone := p1.iZone.set 7 k } }, k)
      else (s, p.iZone.getD 7 0)
    let ptrs := zoneInd (s.zones ind)
    match (List.range 1024).find? (fun i => ptrs.getD i 0 = 0) with
    | some i => .ok { s with zones := updF s.zones ind (.indZ (ptrs.set i z)) }
    | none => do
      let (s, dind) :=
        if (s.inodes idx).iZone.getD 8 0 = 0 then
          let (k, s1) := mnx_alloc_zone s
          let p1 := s1.inodes idx
          ({ s1 with
            inodes :=
              updF s1.inodes idx { p1 with iZone := p1.iZone.set 8 k } }, k)
        else (s, (s.inodes idx).iZone.getD 8 0)
      mnxAddZoneDD 1025 s dind z 0

/-- `mnx_dir_try_enter`: find the first of the zone's 64 records with
`d_ino == 0`; if found, store the child there with the name
`strncpy`-ed into the 60-byte field (truncated and zero-padded). -/
def mnx_dir_try_enter (s : MnxSt) (z child : Nat) (name : List Nat) :
    Option MnxSt :=
  ((List.range 64).find?
      (fun i => ((zoneDir (s.zones z)).getD i (0, [])).1 = 0)).map
    (fun i =>
      { s with
        zones :=
          updF s.zones z
            (.dirZ ((zoneDir (s.zones z)).set i
              (child, padTo 60 (name.take 60)))) })

/-- The indirect part of `mnx_enter_dir` (`i_zone[7]`, 1024 pointer
slots, each zone allocated on demand); `ERR_TOOBIG` when all are
full. -/
def mnxEnterInd : Nat → MnxSt → Nat → List Nat → Nat → Nat → Nat →
    Except Err MnxSt
  | 0, _, _, _, _, _, _ => .error .toobig
  | f + 1, s, parent, name, child, ind, k =>
    if k ≥ 1024 then .error .toobig
    else
      let ptrs := zoneInd (s.zones ind)
      let (z, s) :=
        if ptrs.getD k 0 = 0 then
          let (z2, s2) := mnx_alloc_zone s
          (z2, { s2 with
            zones :=
              updF s2.zones ind
                (.indZ ((zoneInd (s2.zones ind)).set k z2)) })
        else (ptrs.getD k 0, s)
      match mnx_dir_try_enter s z child name with
      | some s2 => .ok s2
      | none => mnxEnterInd f s parent name child ind (k + 1)

/-- The `if (z == 0) { z = mnx_alloc_zone(); ino->i_zone[k] = z; }` step
of `mnx_enter_dir`: the zone to try for slot `k`, allocating and linking
a fresh one when the slot is empty. -/
def mnxEnterZS (s : MnxSt) (parent k : Nat) : Nat × MnxSt :=
  if (s.inodes (parent - 1)).iZone.getD k 0 = 0 then
    ((mnx_alloc_zone s).1,
     { (mnx_alloc_zone s).2 with
       inodes :=
         updF (mnx_alloc_zone s).2.inodes (parent - 1)
           { s.inodes (parent - 1) with
             iZone := (s.inodes (parent - 1)).iZone.set k
               (mnx_alloc_zone s).1 } })
  else ((s.inodes (parent - 1)).iZone.getD k 0, s)

/-- The fall-through of `mnx_enter_dir` once the 7 direct slots are
exhausted: set up `i_zone[7]` and scan the indirect chain. -/
def mnxEnterSeven (s : MnxSt) (parent : Nat) (name : List Nat)
    (child : Nat) : Except Err MnxSt :=
  let zs := mnxEnterZS s parent 7
  mnxEnterInd 1025 zs.2 parent name child zs.1 0

/-- The direct-slot loop of `mnx_enter_dir` (`for k < NR_DZONES`):
allocate `i_zone[k]` if empty and try to enter the child there. -/
def mnxEnterD : Nat → MnxSt → Nat → List Nat → Nat → Nat → Except Err MnxSt
  | 0, s, parent, name, child, _ => mnxEnterSeven s parent name child
  | f + 1, s, parent, name, child, k =>
    (mnx_dir_try_enter (mnxEnterZS s parent k).2 (mnxEnterZS s parent k).1
        child name).elim
      (mnxEnterD f (mnxEnterZS s parent k).2 parent name child (k + 1))
      (fun s2 => .ok s2)

/-- `mnx_enter_dir`: enter `child` under `name` in `parent`, trying the
7 direct zones then the single-indirect zone chain. -/
def mnx_enter_dir (s : MnxSt) (parent : Nat) (name : List Nat)
    (child : Nat) : Except Err MnxSt :=
  mnxEnterD 7 s parent name child 0

/-- The path-resolution `do { ... } while(1)` of `mnx_add` (it only
reads the state): walk the parent's direct zones record by record; on a
component match descend (resetting `i = k = 0`, which the following
`i++` turns into 1, and checking the size bound against the old
parent's inode, as the source does); stop at an empty zone, when the
scan passes `i_size`, or when the remaining path is the leaf;
`ERR_TOOBIG` when the scan would need indirect zones (`k >= NR_DZONES`,
the FIXME in the source).  Returns the directory inode and the leaf
name to enter.  (When a matched component has nothing after its
terminator the source would read past the string; that unreachable case
returns the empty leaf here.) -/
def mnxResolve : Nat → MnxSt → Nat → List Nat → Nat → Nat → Nat →
    Except Err (Nat × List Nat)
  | 0, _, parent, fn, _, _, _ => .ok (parent, fn)
  | f + 1, s, parent, fn, comp, i, k =>
    let ino := s.inodes (parent - 1)
    if ino.iZone.getD k 0 = 0 then .ok (parent, fn)
    else if k ≥ 7 then .error .toobig
    else
      let slots := zoneDir (s.zones (ino.iZone.getD k 0))
      let slot := slots.getD i (0, [])
      let m := slot.2.take comp = fn.take comp ∧ slot.2.getD comp 0 = 0
      if m then
        let fn2 := fn.drop (comp + 1)
        if comp ≥ fn.length then .ok (slot.1, fn2)
        else if ¬ fn2.any (· = slashB) then .ok (slot.1, fn2)
        else
          let i2 := 0 + 1
          let (i3, k3) := if i2 = 64 then (0, 1) else (i2, 0)
          if (k3 * 64 + i3) * 64 ≥ ino.size then .ok (slot.1, fn2)
          else mnxResolve f s slot.1 fn2 (compLen fn2) i3 k3
      else
        let i2 := i + 1
        let (i3, k3) := if i2 = 64 then (0, k + 1) else (i2, k)
        if (k3 * 64 + i3) * 64 ≥ ino.size then .ok (parent, fn)
        else mnxResolve f s parent fn comp i3 k3

/-- The regular-file loop of `mnx_add`: per zone, copy a full
4096-byte block (the source always copies `DEFAULT_BLOCK_SIZE` bytes;
past-the-buffer bytes are modelled as the available prefix) and grow
the inode by `min(size, 4096)`. -/
def mnxWriteChunks : Nat → MnxSt → Nat → List Nat → Nat → Nat →
    Except Err MnxSt
  | 0, s, _, _, size, _ => if size = 0 then .ok s else .error .toobig
  | f + 1, s, n, content, size, mtime =>
    if size = 0 then .ok s
    else do
      let (z, s) := mnx_alloc_zone s
      let s := { s with zones := updF s.zones z (.rawZ (content.take 4096)) }
      let s ← mnx_add_zone s n z (if size < 4096 then size else 4096) mtime
      if size > 4096 then mnxWriteChunks f s n (content.drop 4096) (size - 4096) mtime
      else .ok s

/-- `mnx_add`: silent no-op for "."/".." leaves and unsupported kinds;
otherwise allocate the inode, resolve the path, enter the leaf, grow
the parent by one 64-byte record, bump the child's link count, then per
kind: seed directories with "."/"..", store `st_rdev` as the zone
number of device specials, copy symlink targets (plus their NUL) into
one zone, and write regular content zone by zone. -/
def mnx_add (s : MnxSt) (kind : FKind) (perm uid gid mtime rdev : Nat)
    (name : List Nat) (content : List Nat) (size : Nat) :
    Except Err MnxSt := do
  let fn := leafOf name
  if fn = [dotB] ∨ fn = [dotB, dotB] then pure s
  else if ¬(kind = .reg ∨ kind = .dir ∨ kind = .lnk ∨ kind = .chr ∨
      kind = .blkdev) then pure s
  else do
    let (n, s) ← mnx_alloc_inode s (stMode kind perm) uid gid
    let r ← mnxResolve ((name.length + 1) * 512) s s.rootIno name
      (compLen name) 0 0
    let parent := r.1
    let s ← mnx_enter_dir s parent r.2 n
    let s := mnx_incr_size s parent 64
    let s := mnx_incr_link s n
    if kind = .dir then do
      let (z, s) := mnx_alloc_zone s
      let s ← mnx_add_zone s n z 128 mtime
      let s ← mnx_enter_dir s n [dotB] n
      let s ← mnx_enter_dir s n [dotB, dotB] parent
      pure (mnx_incr_link (mnx_incr_link s parent) n)
    else if kind = .chr ∨ kind = .blkdev then
      mnx_add_zone s n rdev size mtime
    else if kind = .lnk then
      if size > 4096 - 1 then .error .toobig
      else do
        let (z, s) := mnx_alloc_zone s
        let s := { s with
          zones := updF s.zones z (.rawZ (content.take size ++ [0])) }
        mnx_add_zone s n z size mtime
    else
      mnxWriteChunks (size + 1) s n content size mtime

/-- A concrete Minix state: inode 2's first direct zone is zone 100,
holding 64 occupied records; slot `i_zone[1]` is still 0. -/
def mnxC9St : MnxSt :=
  { ninodes := 1000
    nextZone := 200
    nextInode := 6
    zoff := 50
    rootIno := 1
    inodeBm := fun _ => false
    zoneBm := fun x => decide (x ≤ 50)
    inodes := fun n =>
      if n = 1 then
        { mode := 16877, nlinks := 2, size := 4096
          iZone := [100, 0, 0, 0, 0, 0, 0, 0, 0, 0] }
      else {}
    zones := fun z =>
      if z = 100 then .dirZ (List.replicate 64 (5, List.replicate 60 0))
      else .emptyZ }

/-- A small ext2 state for exercising the `ext_add` entry filters (the
filtered paths return before touching the geometry). -/
def extC8St : ExtSt :=
  { blocksCount := 64, inodesCount := 64, inodesPerGroup := 64
    freeBlocks := 50, freeInodes := 50
    bgFreeBlocks := fun _ => 50, bgFreeInodes := fun _ => 50
    bgUsedDirs := fun _ => 1
    blockBitmap := fun _ => false, inodeBitmap := fun _ => false
    nextblk := 12, nextinode := 12, blkgap := 0, rootIno := 2
    lastdir := none
    inodes := fun _ => {}, blocks := fun _ => .emptyB }

/-- A small Minix state for exercising the `mnx_add` entry filters. -/
def mnxC8St : MnxSt :=
  { ninodes := 100, nextZone := 60, nextInode := 3, zoff := 50, rootIno := 1
    inodeBm := fun _ => false, zoneBm := fun _ => false
    inodes := fun _ => {}, zones := fun _ => .emptyZ }

/-! ## FS/Z (`src/utilies/mkbootimg/fsZ.c`) -/

/-- C `strcmp` over byte lists (a list models the bytes of a
NUL-terminated string; a 0 byte inside the list terminates the
comparison exactly as the C terminator does). -/
def strcmpB : List Nat → List Nat → Int
  | [], [] => 0
  | [], b :: _ => 0 - (b : Int)
  | a :: _, [] => (a : Int)
  | a :: as, b :: bs =>
    if a = b then (if a = 0 then 0 else strcmpB as bs)
    else (a : Int) - (b : Int)

/-- C `strncmp(a, b, n) == 0` for strings without embedded NUL bytes:
the first `n` bytes agree once both are 0-extended past their
terminator. -/
def strncmpEq (n : Nat) (a b : List Nat) : Bool :=
  decide (padTo n (a.take n) = padTo n (b.take n))

/-- `fsz_direntcmp` as an ordering test: entry `a` sorts no later than
entry `b` when `strcmp` of the names is `<= 0`. -/
def dentLe (a b : Nat × List Nat) : Bool := decide (strcmpB a.2 b.2 ≤ 0)

/-- Insert one directory entry into a `fsz_direntcmp`-sorted run. -/
def insEnt (e : Nat × List Nat) :
    List (Nat × List Nat) → List (Nat × List Nat)
  | [] => [e]
  | x :: xs => if dentLe e x then e :: x :: xs else x :: insEnt e xs

/-- The `qsort(..., fsz_direntcmp)` call modelled as a sort (insertion
sort) over the comparator's order. -/
def sortEnts : List (Nat × List Nat) → List (Nat × List Nat)
  | [] => []
  | x :: xs => insEnt x (sortEnts xs)

/-- Ascending order by name under `fsz_direntcmp`. -/
def entsSorted (l : List (Nat × List Nat)) : Prop :=
  l.Pairwise (fun a b => dentLe a b = true)

/-- The slice of the FS/Z builder state `fsz_link_inode` touches: the
superblock's `rootdirfid`, which inodes carry the `dir ` filetype, each
directory inode's embedded entry list (`(fid, name)` pairs in slot
order, occupied slots only), and the `size`/`numlinks` counters of the
inodes.  `fsz_secsize` is the default 4096, so a directory embeds
`(4096-1024)/128 - 1 = 23` entry slots after the header. -/
structure FszSt where
  rootdirfid : Nat
  isDir : Nat → Bool
  dirs : Nat → List (Nat × List Nat)
  insize : Nat → Nat
  numlinks : Nat → Nat

/-- Name written into a fresh entry: up to 110 bytes of the remaining
path, and a '/' suffix when the linked inode is a directory. -/
def fszNewName (s : FszSt) (inode : Nat) (path : List Nat) : List Nat :=
  path.take 110 ++ (if s.isDir inode then [slashB] else [])

/-- The tail of `fsz_link_inode` once no entry matched: fill the first
free slot, bump `numentries`/`size`/`numlinks`, and `qsort` the
occupied entries by name. -/
def fszInsertEnt (s : FszSt) (tn inode : Nat) (path : List Nat) : FszSt :=
  { s with
    dirs :=
      updF s.dirs tn
        (sortEnts (s.dirs tn ++ [(inode, fszNewName s inode path)]))
    insize := updF s.insize tn (s.insize tn + 128)
    numlinks := updF s.numlinks inode (s.numlinks inode + 1) }

/-- The `ERR_TOOMANY` capacity guard (`numentries >= 23` exits) in
front of the insertion. -/
def fszStep (s : FszSt) (tn inode : Nat) (path : List Nat) :
    Except Err FszSt :=
  if (s.dirs tn).length ≥ 23 then .error .toomany
  else .ok (fszInsertEnt s tn inode path)

/-- `fsz_link_inode(inode, path, toinode)`: resolve `toinode == 0` to
the root directory, scan at most 23 occupied entries for one whose
name matches the first path component including its terminating '/' or
NUL (`strncmp(ent->name, path, ns+1)`), recurse into a match with the
rest of the path, and otherwise insert a new entry and re-sort.  The
recursion consumes at least one path byte per level, so a fuel of
`path.length + 1` is exact. -/
def fsz_link_inode : Nat → FszSt → Nat → List Nat → Nat → Except Err FszSt
  | 0, _, _, _, _ => .error .toomany
  | f + 1, s, inode, path, toinode =>
    (((s.dirs (if toinode = 0 then s.rootdirfid else toinode)).take 23).find?
        (fun e => strncmpEq (compLen path + 1) e.2 path)).elim
      (fszStep s (if toinode = 0 then s.rootdirfid else toinode) inode path)
      (fun e => fsz_link_inode f s inode (path.drop (compLen path + 1)) e.1)

/-- ASCII bytes of "a.txt". -/
def aTxtB : List Nat := [97, 46, 116, 120, 116]

/-- ASCII bytes of "b.txt". -/
def bTxtB : List Nat := [98, 46, 116, 120, 116]

/-- ASCII bytes of "c.txt". -/
def cTxtB : List Nat := [99, 46, 116, 120, 116]

/-- An empty FS/Z image state: the root directory is inode 1 and every
directory listing is still empty. -/
def fszC5s0 : FszSt :=
  { rootdirfid := 1
    isDir := fun _ => false
    dirs := fun _ => []
    insize := fun _ => 0
    numlinks := fun _ => 0 }

/-- The state after linking c.txt (inode 2) and then a.txt (inode 3)
into the root directory, out of alphabetical order. -/
def fszC5s2 : FszSt :=
  fszInsertEnt (fszInsertEnt fszC5s0 1 2 cTxtB) 1 3 aTxtB

/-- The state after additionally linking b.txt (inode 4). -/
def fszC5s3 : FszSt := fszInsertEnt fszC5s2 1 4 bTxtB

/-- The filetype sniff at the top of `fsz_add_file`: the `data[0]==0x55
&& data[1]==0xAA && data[3]==0xE9 && data[8]=='B' && data[12]=='B'`
test (with C's short-circuit evaluation), each access modelled as a
bounds-checked read so an out-of-range index yields `none`.  The test
depends only on the buffer, never on the declared `size`. -/
def fszSniffBoot (data : List Nat) : Option Bool :=
  (data[0]?).bind (fun b0 =>
    if b0 = 0x55 then
      (data[1]?).bind (fun b1 =>
        if b1 = 0xAA then
          (data[3]?).bind (fun b3 =>
            if b3 = 0xE9 then
              (data[8]?).bind (fun b8 =>
                if b8 = 66 then
                  (data[12]?).bind (fun b12 => some (decide (b12 = 66)))
                else some false)
            else some false)
        else some false)
    else some false)

/-- The text-detection loop of `fsz_add_file`'s mimetype fallback —
`for(i=0;i<read_size;i++) if(data[i]<9) { j=0; break; }` — scanning
`n` further bytes from index `i`, again with bounds-checked reads. -/
def fszTextScan (data : List Nat) : Nat → Nat → Option Bool
  | _, 0 => some true
  | i, n + 1 =>
    (data[i]?).bind
      (fun b => if b < 9 then some false else fszTextScan data (i + 1) n)

/-- The whole fallback loop: `read_size` bytes from index 0 (the global
`read_size` is the byte count of the last file read, independent of
the entry's declared `size`). -/
def fszTextDetect (data : List Nat) (rdsize : Nat) : Option Bool :=
  fszTextScan data 0 rdsize

/-! ## General lemmas -/

theorem foldl_intAdd (h : List Nat) (a : Int) :
    h.foldl (fun (x : Int) (b : Nat) => x + b) a = a + h.sum := by
  induction h generalizing a with
  | nil => simp
  | cons b t ih => rw [List.foldl_cons, ih, List.sum_cons]; push_cast; ring

theorem mem_octDigsAux_lt (f : Nat) : ∀ v, ∀ d ∈ octDigsAux f v, d < 8 := by
  induction f with
  | zero => intro v d hd; simp only [octDigsAux, List.mem_singleton] at hd; omega
  | succ f ih =>
    intro v d hd
    simp only [octDigsAux] at hd
    by_cases h : v < 8
    · simp [h] at hd; omega
    · simp only [h, if_false, List.mem_append, List.mem_singleton] at hd
      rcases hd with hd | hd
      · exact ih _ _ hd
      · omega

theorem octDigsAux_length_le (f : Nat) :
    ∀ v w, 1 ≤ w → v < 8 ^ w → (octDigsAux f v).length ≤ w := by
  induction f with
  | zero => intro v w hw _; simp [octDigsAux]; omega
  | succ f ih =>
    intro v w hw hv
    simp only [octDigsAux]
    by_cases h : v < 8
    · simp [h]; omega
    · simp only [h, if_false, List.length_append, List.length_singleton]
      have hw2 : 2 ≤ w := by
        by_contra hc
        interval_cases w
        · simp at hv; omega
      have hdiv : v / 8 < 8 ^ (w - 1) := by
        have h8 : (0:Nat) < 8 := by norm_num
        rw [Nat.div_lt_iff_lt_mul h8]
        have : 8 ^ (w - 1) * 8 = 8 ^ w := by
          rw [← pow_succ]
          congr 1
          omega
        omega
      have := ih (v / 8) (w - 1) (by omega) hdiv
      omega

theorem octDigsAux_foldl (f : Nat) :
    ∀ v a, v ≤ f →
      (octDigsAux f v).foldl (fun x d => x * 8 + d) a =
        a * 8 ^ (octDigsAux f v).length + v := by
  induction f with
  | zero =>
    intro v a hv
    have : v = 0 := by omega
    subst this
    simp [octDigsAux]
  | succ f ih =>
    intro v a hv
    simp only [octDigsAux]
    by_cases h : v < 8
    · simp [h]
    · simp only [h, if_false, List.foldl_append, List.length_append,
        List.length_singleton, List.foldl_cons, List.foldl_nil]
      have hle : v / 8 ≤ f := by
        have : v / 8 < v := Nat.div_lt_self (by omega) (by norm_num)
        omega
      rw [ih (v / 8) a hle]
      have hmod := Nat.div_add_mod v 8
      rw [pow_succ]
      ring_nf
      omega

theorem foldl_map48 (l : List Nat) :
    ∀ a, (l.map (· + 48)).foldl (fun x d => x * 8 + (d - 48)) a =
      l.foldl (fun x d => x * 8 + d) a := by
  induction l with
  | nil => intro a; rfl
  | cons b t ih =>
    intro a
    simp only [List.map_cons, List.foldl_cons, Nat.add_sub_cancel]
    exact ih _

theorem foldl_rep48 (k : Nat) :
    (List.replicate k 48).foldl (fun a d => a * 8 + (d - 48)) 0 = 0 := by
  induction k with
  | zero => rfl
  | succ k ih => simpa [List.replicate_succ] using ih

theorem parseOct_sprintfOct (w v : Nat) (hw : 1 ≤ w) (hv : v < 8 ^ w) :
    parseOct ((sprintfOct w v).take w) = v := by
  have hlen : (octDigs v).length ≤ w := octDigsAux_length_le v v w hw hv
  have hdig : ((octDigs v).map (· + 48)).length = (octDigs v).length := by
    simp
  have hpre : (List.replicate (w - (octDigs v).length) 48 ++
      (octDigs v).map (· + 48)).length = w := by
    simp only [List.length_append, List.length_replicate, hdig]
    omega
  have htake : (sprintfOct w v).take w =
      List.replicate (w - (octDigs v).length) 48 ++ (octDigs v).map (· + 48) := by
    unfold sprintfOct
    rw [List.append_assoc]
    rw [← List.append_assoc]
    exact List.take_left' hpre
  rw [htake]
  unfold parseOct
  rw [List.foldl_append, foldl_rep48, foldl_map48]
  unfold octDigs
  rw [octDigsAux_foldl v v 0 (le_refl v)]
  simp

theorem sprintfOct_length (w v : Nat) (h : (octDigs v).length ≤ w) :
    (sprintfOct w v).length = w + 1 := by
  unfold sprintfOct
  simp only [List.length_append, List.length_replicate, List.length_map,
    List.length_singleton]
  omega

theorem mem_sprintfOct_le (w v : Nat) : ∀ b ∈ sprintfOct w v, b ≤ 55 := by
  intro b hb
  unfold sprintfOct at hb
  simp only [List.mem_append, List.mem_replicate, List.mem_map,
    List.mem_singleton] at hb
  rcases hb with (h | ⟨d, hd, rfl⟩) | h
  · omega
  · have := mem_octDigsAux_lt v v d hd
    omega
  · omega

theorem mem_padTo (n : Nat) (l : List Nat) :
    ∀ b ∈ padTo n l, b ∈ l ∨ b = 0 := by
  intro b hb
  unfold padTo at hb
  simp only [List.mem_append, List.mem_replicate] at hb
  tauto

theorem padTo_length (n : Nat) (l : List Nat) (h : l.length ≤ n) :
    (padTo n l).length = n := by
  unfold padTo
  simp only [List.length_append, List.length_replicate]
  omega

/-! ## Facts about the ustar header of a size-0 regular file -/

theorem tarHeader_reg_facts (mode : Nat) (name : List Nat)
    (content : Option (List Nat)) (hname : ∀ b ∈ name, b < 256) :
    (tarHeader .reg mode name content).length = 512 ∧
    parseOct (((tarHeader .reg mode name content).drop 148).take 6) =
      sumWithSpaces (tarHeader .reg mode name content) := by
  set T : List Nat :=
    padTo 100 (name.take 99) ++ sprintfOct 7 (mode % 32768) ++
    sprintfOct 7 0 ++ sprintfOct 7 0 ++ sprintfOct 11 0 ++ sprintfOct 11 0
    with hTdef
  set K : List Nat :=
    [48, 48, 48, 48, 48, 48, 0] ++ [32, 48] ++ List.replicate 100 0 ++
    [117, 115, 116, 97, 114, 32, 32] ++ [0] ++
    ([114, 111, 111, 116] ++ List.replicate 28 0) ++
    ([114, 111, 111, 116] ++ List.replicate 211 0) with hKdef
  have hsplit : tarHeader0 .reg mode name content = T ++ K := by
    simp [tarHeader0, tarTypeDigit, hTdef, hKdef, List.append_assoc]
  have hmode5 : mode % 32768 < 8 ^ 5 := by
    have : mode % 32768 < 32768 := Nat.mod_lt _ (by norm_num)
    norm_num
    omega
  have hT : T.length = 148 := by
    rw [hTdef]
    simp only [List.length_append]
    rw [padTo_length _ _ (le_trans (List.length_take_le _ _) (by norm_num))]
    rw [sprintfOct_length 7 _ (le_trans (octDigsAux_length_le _ _ 5 (by norm_num) hmode5) (by norm_num))]
    rw [sprintfOct_length 7 0 (by decide), sprintfOct_length 11 0 (by decide)]
  have hKsum : K.sum = 1895 := by decide
  have hK8sum : (K.drop 8).sum = 1575 := by decide
  have hchk : tarChkInt (T ++ K) = (T.sum : Int) + K.sum - 64 := by
    unfold tarChkInt
    rw [foldl_intAdd]
    have hg : ∀ i, (T ++ K).getD (148 + i) 0 = K.getD i 0 := by
      intro i
      rw [List.getD_append_right _ _ _ _ (by omega)]
      rw [hT]
      simp
    simp only [hg]
    have hfold : (List.range 8).foldl
        (fun a i => a + (32 - ((K.getD i 0 : Nat) : Int))) 0 = -64 := by decide
    rw [hfold, List.sum_append]
    push_cast
    ring
  have hTle : ∀ b ∈ T, b ≤ 255 := by
    intro b hb
    rw [hTdef] at hb
    simp only [List.mem_append] at hb
    rcases hb with ((((hb | hb) | hb) | hb) | hb) | hb
    · rcases mem_padTo _ _ _ hb with h | h
      · have := hname b (List.mem_of_mem_take h)
        omega
      · omega
    all_goals
      have := mem_sprintfOct_le _ _ b hb
      omega
  have hTsum : T.sum ≤ 37740 := by
    have := List.sum_le_card_nsmul T 255 hTle
    rw [hT] at this
    simpa using this
  have hjval : tarChkInt (T ++ K) = ((T.sum + 1831 : Nat) : Int) := by
    rw [hchk, hKsum]
    push_cast
    ring
  have hjnat : (tarChkInt (T ++ K)).toNat = T.sum + 1831 := by
    rw [hjval, Int.toNat_natCast]
  have hjlt : T.sum + 1831 < 8 ^ 6 := by norm_num; omega
  have hjdigs : (octDigs (T.sum + 1831)).length ≤ 6 :=
    octDigsAux_length_le _ _ 6 (by norm_num) hjlt
  have hO : (sprintfOct 6 (T.sum + 1831)).length = 7 := sprintfOct_length _ _ hjdigs
  have hhdr : tarHeader .reg mode name content =
      T ++ sprintfOct 6 (T.sum + 1831) ++ K.drop 7 := by
    unfold tarHeader
    rw [hsplit, hjnat, List.take_left' hT]
    congr 1
    have h1 : ((T ++ K).drop 148).drop 7 = (T ++ K).drop (148 + 7) :=
      List.drop_drop 7 148 (T ++ K)
    rw [show (155 : Nat) = 148 + 7 from rfl, ← h1, List.drop_left' hT]
  constructor
  · rw [hhdr]
    simp only [List.length_append, hT, hO]
    decide
  · have hdrop148 : (tarHeader .reg mode name content).drop 148 =
        sprintfOct 6 (T.sum + 1831) ++ K.drop 7 := by
      rw [hhdr, List.append_assoc, List.drop_left' hT]
    have htake148 : (tarHeader .reg mode name content).take 148 = T := by
      rw [hhdr, List.append_assoc, List.take_left' hT]
    have hdrop156 : (tarHeader .reg mode name content).drop 156 = K.drop 8 := by
      have h1 : ((tarHeader .reg mode name content).drop 148).drop 8 =
          (tarHeader .reg mode name content).drop (148 + 8) :=
        List.drop_drop 8 148 _
      rw [show (156 : Nat) = 148 + 8 from rfl, ← h1, hdrop148]
      have h2 : ((sprintfOct 6 (T.sum + 1831) ++ K.drop 7).drop 7).drop 1 =
          (sprintfOct 6 (T.sum + 1831) ++ K.drop 7).drop (7 + 1) :=
        List.drop_drop 1 7 _
      rw [show (8 : Nat) = 7 + 1 from rfl, ← h2, List.drop_left' hO,
        List.drop_drop]
    rw [hdrop148, List.take_append_of_le_length (by rw [hO]; norm_num)]
    rw [parseOct_sprintfOct 6 _ (by norm_num) hjlt]
    unfold sumWithSpaces
    rw [htake148, hdrop156, hK8sum]

/-! ## Claim theorems -/

/-- C3: for every regular file entry of size 0, `tar_add` appends exactly
one 512-byte header block and zero data blocks to the buffer, and the
checksum field written at offset 148 of that header parses back to the
additive sum of all 512 header bytes with the 8 checksum-field bytes
(offsets 148..155) counted as ASCII spaces. -/
theorem tar_add_zero_size_header_and_checksum (mode : Nat) (name : List Nat)
    (content : Option (List Nat)) (fs : List Nat)
    (hname : ∀ b ∈ name, b < 256) :
    tar_add .reg mode name content 0 fs =
      fs ++ tarHeader .reg mode name content ∧
    (tar_add .reg mode name content 0 fs).length = fs.length + 512 ∧
    parseOct ((((tar_add .reg mode name content 0 fs).drop fs.length).drop
        148).take 6) =
      sumWithSpaces ((tar_add .reg mode name content 0 fs).drop fs.length) := by
  obtain ⟨hlen, hchk⟩ := tarHeader_reg_facts mode name content hname
  have hadd : tar_add .reg mode name content 0 fs =
      fs ++ tarHeader .reg mode name content := by
    unfold tar_add
    norm_num
    cases content with
    | none => simp
    | some c => simp
  refine ⟨hadd, ?_, ?_⟩
  · rw [hadd]
    simp [hlen]
  · rw [hadd, List.drop_left]
    exact hchk

/-- Witness for C3 at a concrete input: the file `"a"` with mode 0644 and
no content, added to an empty buffer. -/
theorem tar_add_zero_size_header_and_checksum_wit :
    (∀ b ∈ [97], b < 256) ∧
    (tar_add .reg 420 [97] none 0 ([] : List Nat) =
      ([] : List Nat) ++ tarHeader .reg 420 [97] none ∧
    (tar_add .reg 420 [97] none 0 ([] : List Nat)).length =
      ([] : List Nat).length + 512 ∧
    parseOct ((((tar_add .reg 420 [97] none 0 ([] : List Nat)).drop
        ([] : List Nat).length).drop 148).take 6) =
      sumWithSpaces ((tar_add .reg 420 [97] none 0 ([] : List Nat)).drop
        ([] : List Nat).length)) :=
  ⟨by decide, tar_add_zero_size_header_and_checksum 420 [97] none [] (by decide)⟩

/-- C6: `fat_open` fails fatally with the partition-too-small diagnostic
whenever the partition yields fewer than 4085 clusters, and otherwise
formats FAT16 exactly when the cluster count is below 65525 and FAT32
exactly when it is 65525 or more. -/
theorem fat_open_floor_and_width (sectors : Nat) :
    (sectors < 4085 → fat_open sectors = .error .nosize) ∧
    (4085 ≤ sectors → sectors < 65525 →
      ∃ s, fat_open sectors = .ok s ∧ s.isFat16 = true) ∧
    (65525 ≤ sectors →
      ∃ s, fat_open sectors = .ok s ∧ s.isFat16 = false) := by
  unfold fat_open
  refine ⟨fun h => ?_, fun h1 h2 => ?_, fun h => ?_⟩
  · simp [Nat.div_one, h]
  · simp only [Nat.div_one]
    rw [if_neg (by omega), if_pos (by omega)]
    exact ⟨_, rfl, rfl⟩
  · simp only [Nat.div_one]
    rw [if_neg (by omega), if_neg (by omega)]
    exact ⟨_, rfl, rfl⟩

/-- Witness for C6 at the boundary inputs 4084, 4085 and 65525. -/
theorem fat_open_floor_and_width_wit :
    fat_open 4084 = .error .nosize ∧
    (∃ s, fat_open 4085 = .ok s ∧ s.isFat16 = true) ∧
    (∃ s, fat_open 65525 = .ok s ∧ s.isFat16 = false) :=
  ⟨(fat_open_floor_and_width 4084).1 (by decide),
   (fat_open_floor_and_width 4085).2.1 (by decide) (by decide),
   (fat_open_floor_and_width 65525).2.2 (by decide)⟩

theorem and128_eq_zero (b : Nat) (h : b < 128) : b &&& 128 = 0 := by
  have h1 : (128 : Nat) = 2 ^ 7 := by norm_num
  rw [h1, Nat.and_two_pow]
  have ht : b.testBit 7 = false := Nat.testBit_lt_two_pow (by norm_num; omega)
  simp [ht]

theorem fatUtf8_ascii (l : List Nat) (h : ∀ b ∈ l, b < 128) :
    ∀ f, l.length ≤ f → fatUtf8 f l = some l := by
  induction l with
  | nil => intro f _; cases f <;> rfl
  | cons b t ih =>
    intro f hf
    cases f with
    | zero => simp at hf
    | succ f =>
      have hb : b &&& 128 = 0 := and128_eq_zero b (h b (List.mem_cons_self b t))
      have ht := ih (fun x hx => h x (List.mem_cons_of_mem b hx)) f
        (by simp at hf; omega)
      rw [fatUtf8, if_pos hb, ht]
      rfl

/-- C7: for every 64-character (ASCII) file name, `fat_writelfn` emits
exactly `ceil(64/13) = 5` chained 32-byte LFN records in reverse chunk
order — the first record carries the last name chunk and the 0x40 flag
(sequence byte `0x40 | 5 = 69`), the last carries sequence number 1 and
the first chunk — each holding attribute 0x0F and the checksum of the
synthesized 8.3 alias, immediately followed by exactly one short-name
record bearing that alias. -/
theorem fat_writelfn_64char_records (name : List Nat) (typeDir : Bool)
    (size lfncnt nextcluster cluArg timeW : Nat)
    (h64 : name.length = 64) (hascii : ∀ b ∈ name, b < 128)
    (hdot : name.headD 0 ≠ dotB) :
    ∃ recs,
      fat_writelfn name typeDir size lfncnt nextcluster cluArg timeW =
        some recs ∧
      recs.length = (64 + 12) / 13 + 1 ∧
      recs = [lfnRec 69 (fatChk ((sfnOf lfncnt).take 11))
                (((name ++ [0]).drop 52).take 13),
              lfnRec 4 (fatChk ((sfnOf lfncnt).take 11))
                (((name ++ [0]).drop 39).take 13),
              lfnRec 3 (fatChk ((sfnOf lfncnt).take 11))
                (((name ++ [0]).drop 26).take 13),
              lfnRec 2 (fatChk ((sfnOf lfncnt).take 11))
                (((name ++ [0]).drop 13).take 13),
              lfnRec 1 (fatChk ((sfnOf lfncnt).take 11))
                (((name ++ [0]).drop 0).take 13),
              fatShortRec ((sfnOf lfncnt).take 11) typeDir size
                (if (if cluArg = 0 then nextcluster else cluArg) < 3 then 0
                 else if cluArg = 0 then nextcluster else cluArg) timeW] ∧
      (∀ r ∈ recs.take 5, r.length = 32 ∧ r.getD 11 0 = 0xF ∧
        r.getD 13 0 = fatChk ((sfnOf lfncnt).take 11)) := by
  have hu : fatUtf8 name.length name = some name :=
    fatUtf8_ascii name hascii name.length (le_refl _)
  have heq : fat_writelfn name typeDir size lfncnt nextcluster cluArg timeW =
      some [lfnRec 69 (fatChk ((sfnOf lfncnt).take 11))
              (((name ++ [0]).drop 52).take 13),
            lfnRec 4 (fatChk ((sfnOf lfncnt).take 11))
              (((name ++ [0]).drop 39).take 13),
            lfnRec 3 (fatChk ((sfnOf lfncnt).take 11))
              (((name ++ [0]).drop 26).take 13),
            lfnRec 2 (fatChk ((sfnOf lfncnt).take 11))
              (((name ++ [0]).drop 13).take 13),
            lfnRec 1 (fatChk ((sfnOf lfncnt).take 11))
              (((name ++ [0]).drop 0).take 13),
            fatShortRec ((sfnOf lfncnt).take 11) typeDir size
              (if (if cluArg = 0 then nextcluster else cluArg) < 3 then 0
               else if cluArg = 0 then nextcluster else cluArg) timeW] := by
    unfold fat_writelfn
    rw [if_neg hdot, hu]
    simp only [h64]
    norm_num [List.range_succ]
    rw [show (64 ||| 5 : Nat) = 69 from by decide]
  refine ⟨_, heq, ?_, rfl, ?_⟩
  · norm_num
  · intro r hr
    have htake : ∀ (a b c d e f : List Nat),
        ([a, b, c, d, e, f].take 5) = [a, b, c, d, e] := fun _ _ _ _ _ _ => rfl
    rw [htake] at hr
    simp only [List.mem_cons, List.not_mem_nil, or_false] at hr
    rcases hr with rfl | rfl | rfl | rfl | rfl
    all_goals exact ⟨rfl, rfl, rfl⟩

/-- Witness for C7 at a concrete input: a name of 64 'a' characters
produces 5 LFN records plus one short record. -/
theorem fat_writelfn_64char_records_wit :
    ∃ recs, fat_writelfn (List.replicate 64 97) false 0 1 3 0 0 =
      some recs ∧ recs.length = 6 := by
  obtain ⟨recs, h1, h2, _⟩ := fat_writelfn_64char_records
    (List.replicate 64 97) false 0 1 3 0 0 (by decide) (by decide) (by decide)
  exact ⟨recs, h1, by omega⟩

/-- C1: refuted for LeanFS at a band crossing.  On the two-band build
state `lenCrossSt` the next `len_alloc_blk` call returns sector 4098
while setting the bitmap bit of sector 4097: inside the skip loop the
band rollover adds `LEAN_BITMAPSIZE` to `len_nextblk` on top of the
per-step `len_nextblk++` while `(g, o)` stays band-relative, so the bit
marked and the sector handed out differ by one.  The returned unit 4098
is never marked (no mark at the same moment its address is handed out),
though the free counter still drops by one. -/
theorem len_alloc_blk_band_crossing_mismarks :
    ∃ s', len_alloc_blk lenCrossSt = .ok (4098, s') ∧
      s'.bitmap 4098 = false ∧
      lenCrossSt.bitmap 4097 = false ∧ s'.bitmap 4097 = true ∧
      s'.freeSectors + 1 = lenCrossSt.freeSectors ∧
      s'.nextblk = 4099 :=
  ⟨_, rfl, rfl, rfl, rfl, rfl, rfl⟩

/-- C2 counterexample: on a partition of exactly 8 ext2 blocks,
`ext_open` does not succeed — it exits fatally with `ERR_TOOMANY` while
allocating the reserved inodes, because the 8-block geometry yields only
`s_inodes_count = 8` inodes and the guard `ext_nextinode + 1 >=
s_inodes_count` fires at the 8th of the 11 reserved allocations. -/
theorem ext_open_8_blocks_fails : ext_open 8 = .error .toomany := rfl

/-- C2 (amended): `ext_open` on a 4-block partition fails fatally with
the partition-too-small diagnostic; on an 8-block partition it fails
fatally with the too-many-inodes diagnostic (not succeeding as claimed);
the populated open — exactly 11 reserved inodes (`nextinode = 11`, one
inode left free), the root directory holding precisely ".", ".." and
"lost+found", and lost+found holding "." and ".." — is first reached at
12 blocks. -/
theorem ext_open_floor_behaviour :
    ext_open 4 = .error .nosize ∧
    ext_open 8 = .error .toomany ∧
    extOpenView 12 = some (11, 1, 10, 2,
      [[dotB], [dotB, dotB], extName_lf], [[dotB], [dotB, dotB]]) :=
  ⟨rfl, rfl, rfl⟩

/-- The symlink target "target" and link name "mylink" of the C4
failing input. -/
def extC4Target : List Nat := [116, 97, 114, 103, 101, 116]

def extC4Name : List Nat := [109, 121, 108, 105, 110, 107]

/-- A 64-block ext2 image with one root-level symlink added:
`ext_add(symlink "mylink" -> "target", size 6)` right after `ext_open`. -/
def extC4 : Except Err ExtSt := do
  let s ← ext_open 64
  ext_add s .lnk 0o777 0 0 0 0 extC4Name extC4Target 6

/-- C4: refuted on the symlink branch.  Adding the root-level symlink
"mylink" with target "target" (size 6) allocates one data block (block
11, attached as the inode's first block pointer, inode size 6) but
copies `k = 0` bytes into it — `ext_add`'s `memcpy(fs_base + i*SECSIZE,
content, k)` passes the path-resolution loop's leftover block index `k`
instead of `size`, so the block holds none of the target path.  The
device-special half of the claim does hold (see the `i_block[0] :=
st_rdev` branch of `ext_add`). -/
theorem ext_add_symlink_stores_no_target :
    ∃ s, extC4 = .ok s ∧
      (s.inodes 11).size = 6 ∧
      (s.inodes 11).iBlock.getD 0 0 = 11 ∧
      s.blocks 11 = .bytesB (extC4Target.take 0) ∧
      s.blocks 11 ≠ .bytesB extC4Target :=
  ⟨_, rfl, rfl, rfl, rfl, by decide⟩

theorem find?_range64_none (p : Nat → Bool) (h : ∀ i, i < 64 → ¬ p i = true) :
    (List.range 64).find? p = none := by
  rw [List.find?_eq_none]
  intro x hx
  exact h x (List.mem_range.mp hx)

/-- C9: entering a child into a Minix3 directory whose first zone holds
64 occupied 64-byte records (`4096 / 64` per zone) and whose second
direct zone slot is still empty makes `mnx_enter_dir` allocate a fresh
second zone, store the overflow entry in its first record, and leave the
first zone's contents byte-for-byte unchanged. -/
theorem mnx_enter_dir_allocates_second_zone
    (s : MnxSt) (parent child z0 : Nat) (name : List Nat)
    (hroot : (s.inodes (parent - 1)).iZone.getD 0 0 = z0)
    (hz0 : z0 ≠ 0)
    (hz1 : (s.inodes (parent - 1)).iZone.getD 1 0 = 0)
    (hlen : (s.inodes (parent - 1)).iZone.length = 10)
    (hfull : ∀ i, i < 64 → ((zoneDir (s.zones z0)).getD i (0, [])).1 ≠ 0)
    (hlt : z0 < s.nextZone)
    (hfresh : s.zones s.nextZone = .emptyZ) :
    ∃ s', mnx_enter_dir s parent name child = .ok s' ∧
      (s'.inodes (parent - 1)).iZone.getD 1 0 = s.nextZone ∧
      s'.zones z0 = s.zones z0 ∧
      s'.nextZone = s.nextZone + 1 ∧
      zoneDir (s'.zones s.nextZone) =
        (List.replicate 64 ((0 : Nat), List.replicate 60 (0 : Nat))).set 0
          (child, padTo 60 (name.take 60)) ∧
      s'.zoneBm (s.nextZone - s.zoff) = true := by
  have htry0 : mnx_dir_try_enter s z0 child name = none := by
    unfold mnx_dir_try_enter
    rw [find?_range64_none _ (fun i hi => by simpa using hfull i hi)]
    rfl
  have hZS0 : mnxEnterZS s parent 0 = (z0, s) := by
    unfold mnxEnterZS
    rw [hroot, if_neg hz0]
  set sA : MnxSt :=
    { (mnx_alloc_zone s).2 with
      inodes :=
        updF (mnx_alloc_zone s).2.inodes (parent - 1)
          { s.inodes (parent - 1) with
            iZone := (s.inodes (parent - 1)).iZone.set 1
              (mnx_alloc_zone s).1 } }
    with hsA
  have hZS1 : mnxEnterZS s parent 1 = ((mnx_alloc_zone s).1, sA) := by
    unfold mnxEnterZS
    rw [hz1, if_pos rfl]
  have hAzones : sA.zones = s.zones := rfl
  have hA1 : (mnx_alloc_zone s).1 = s.nextZone := rfl
  set sF : MnxSt :=
    { sA with
      zones :=
        updF sA.zones (mnx_alloc_zone s).1
          (.dirZ ((zoneDir MnxZone.emptyZ).set 0
            (child, padTo 60 (name.take 60)))) }
    with hsF
  have htry1 : mnx_dir_try_enter sA (mnx_alloc_zone s).1 child name =
      some sF := by
    unfold mnx_dir_try_enter
    rw [hA1, hAzones, hfresh]
    rfl
  have step0 : mnx_enter_dir s parent name child =
      mnxEnterD 6 s parent name child 1 := by
    have e : mnx_enter_dir s parent name child =
        mnxEnterD (6 + 1) s parent name child 0 := rfl
    rw [e]
    simp only [mnxEnterD, hZS0, htry0, Option.elim]
  have step1 : mnxEnterD 6 s parent name child 1 = .ok sF := by
    have e : mnxEnterD 6 s parent name child 1 =
        mnxEnterD (5 + 1) s parent name child 1 := rfl
    rw [e]
    simp only [mnxEnterD, hZS1, htry1, Option.elim]
  refine ⟨sF, step0.trans step1, ?_, ?_, ?_, ?_, ?_⟩
  · show (updF (mnx_alloc_zone s).2.inodes (parent - 1)
      { s.inodes (parent - 1) with
        iZone := (s.inodes (parent - 1)).iZone.set 1 (mnx_alloc_zone s).1 }
      (parent - 1)).iZone.getD 1 0 = s.nextZone
    unfold updF
    rw [if_pos rfl]
    show ((s.inodes (parent - 1)).iZone.set 1
      (mnx_alloc_zone s).1).getD 1 0 = s.nextZone
    rw [hA1, List.getD_eq_getElem?_getD, List.getElem?_set_self (by omega)]
    rfl
  · show updF sA.zones (mnx_alloc_zone s).1 _ z0 = s.zones z0
    unfold updF
    rw [hA1, if_neg (by omega)]
    rfl
  · rfl
  · show zoneDir (updF sA.zones (mnx_alloc_zone s).1 _ s.nextZone) = _
    unfold updF
    rw [hA1, if_pos rfl]
    rfl
  · show (mnx_alloc_zone s).2.zoneBm (s.nextZone - s.zoff) = true
    show (if s.nextZone - s.zoff = s.nextZone - s.zoff then true
      else s.zoneBm (s.nextZone - s.zoff)) = true
    rw [if_pos rfl]

theorem mnx_enter_dir_allocates_second_zone_wit :
    ∃ s', mnx_enter_dir mnxC9St 2 [97] 7 = .ok s' ∧
      (s'.inodes 1).iZone.getD 1 0 = 200 ∧
      s'.zones 100 = mnxC9St.zones 100 ∧
      s'.nextZone = 201 ∧
      zoneDir (s'.zones 200) =
        (List.replicate 64 ((0 : Nat), List.replicate 60 (0 : Nat))).set 0
          (7, padTo 60 ([97].take 60)) ∧
      s'.zoneBm 150 = true :=
  mnx_enter_dir_allocates_second_zone mnxC9St 2 7 100 [97] rfl
    (by decide) rfl rfl (by decide) (by decide) rfl

/-- C8 counterexample: `tar_add` applies no name filter — adding a
directory entry whose name is "." appends a full 512-byte ustar header
to the archive instead of leaving the buffer untouched. -/
theorem tar_add_dot_appends_header :
    tar_add FKind.dir 493 [dotB] none 0 ([] : List Nat) ≠ [] := by
  have h : (tar_add FKind.dir 493 [dotB] none 0 ([] : List Nat)).length =
      512 := by rfl
  intro he
  rw [he] at h
  exact absurd h (by decide)

/-- C8 (amended): `ext_add` and `mnx_add` return their state unchanged on
an entry whose leaf name is "." or ".." or whose kind they do not store;
`tar_add` leaves its buffer unchanged on kinds it does not store, but it
applies no name filter (see `tar_add` on "."). -/
theorem add_entry_filters (s : ExtSt) (m : MnxSt) (kind kt : FKind)
    (perm uid gid mtime rdev size : Nat) (name content fs : List Nat)
    (hfilter : leafOf name = [dotB] ∨ leafOf name = [dotB, dotB] ∨
      ¬(kind = .reg ∨ kind = .dir ∨ kind = .lnk ∨ kind = .chr ∨
        kind = .blkdev))
    (hkt : ¬(kt = .reg ∨ kt = .dir ∨ kt = .lnk)) :
    ext_add s kind perm uid gid mtime rdev name content size = .ok s ∧
    mnx_add m kind perm uid gid mtime rdev name content size = .ok m ∧
    tar_add kt perm name (some content) size fs = fs := by
  refine ⟨?_, ?_, ?_⟩
  · unfold ext_add
    by_cases hd : leafOf name = [dotB] ∨ leafOf name = [dotB, dotB]
    · simp only [if_pos hd]
      rfl
    · rcases hfilter with h | h | h
      · exact absurd (Or.inl h) hd
      · exact absurd (Or.inr h) hd
      · simp only [if_neg hd, if_pos h]
        rfl
  · unfold mnx_add
    by_cases hd : leafOf name = [dotB] ∨ leafOf name = [dotB, dotB]
    · simp only [if_pos hd]
      rfl
    · rcases hfilter with h | h | h
      · exact absurd (Or.inl h) hd
      · exact absurd (Or.inr h) hd
      · simp only [if_neg hd, if_pos h]
        rfl
  · unfold tar_add
    rw [if_pos hkt]

theorem add_entry_filters_wit :
    (leafOf [dotB, dotB] = [dotB] ∨ leafOf [dotB, dotB] = [dotB, dotB] ∨
      ¬(FKind.reg = .reg ∨ FKind.reg = .dir ∨ FKind.reg = .lnk ∨
        FKind.reg = .chr ∨ FKind.reg = .blkdev)) ∧
    ¬(FKind.fifo = .reg ∨ FKind.fifo = .dir ∨ FKind.fifo = .lnk) ∧
    (ext_add extC8St FKind.reg 420 0 0 0 0 [dotB, dotB] [] 0 =
        .ok extC8St ∧
      mnx_add mnxC8St FKind.reg 420 0 0 0 0 [dotB, dotB] [] 0 =
        .ok mnxC8St ∧
      tar_add FKind.fifo 420 [dotB, dotB] (some []) 0 [1, 2] = [1, 2]) :=
  ⟨Or.inr (Or.inl (by decide)), by decide,
    add_entry_filters extC8St mnxC8St FKind.reg FKind.fifo 420 0 0 0 0 0
      [dotB, dotB] [] [1, 2] (Or.inr (Or.inl (by decide))) (by decide)⟩

theorem strcmpB_nil_le (c : List Nat) : strcmpB [] c ≤ 0 := by
  cases c with
  | nil => simp [strcmpB]
  | cons c0 cs => simp only [strcmpB]; omega

theorem strcmpB_neg : ∀ (a b : List Nat), strcmpB a b = -strcmpB b a := by
  intro a
  induction a with
  | nil =>
    intro b
    cases b with
    | nil => simp [strcmpB]
    | cons b0 bs => simp only [strcmpB]; omega
  | cons a0 as ih =>
    intro b
    cases b with
    | nil => simp only [strcmpB]; omega
    | cons b0 bs =>
      simp only [strcmpB]
      by_cases hab : a0 = b0
      · subst hab
        rw [if_pos rfl, if_pos rfl]
        by_cases haz : a0 = 0
        · rw [if_pos haz, if_pos haz]; omega
        · rw [if_neg haz, if_neg haz]; exact ih bs
      · rw [if_neg hab, if_neg (fun h => hab h.symm)]
        omega

theorem strcmpB_trans (a : List Nat) : ∀ b c, strcmpB a b ≤ 0 →
    strcmpB b c ≤ 0 → strcmpB a c ≤ 0 := by
  induction a with
  | nil => intro b c _ _; exact strcmpB_nil_le c
  | cons a0 as ih =>
    intro b c h1 h2
    cases b with
    | nil =>
      simp only [strcmpB] at h1
      have ha0 : a0 = 0 := by omega
      subst ha0
      cases c with
      | nil => simp only [strcmpB]; omega
      | cons c0 cs =>
        simp only [strcmpB]
        by_cases hc : 0 = c0
        · rw [if_pos hc]; simp
        · rw [if_neg hc]; omega
    | cons b0 bs =>
      cases c with
      | nil =>
        simp only [strcmpB] at h1 h2 ⊢
        by_cases hab : a0 = b0
        · omega
        · rw [if_neg hab] at h1; omega
      | cons c0 cs =>
        simp only [strcmpB] at h1 h2 ⊢
        by_cases hab : a0 = b0
        · rw [if_pos hab] at h1
          by_cases hbc : b0 = c0
          · rw [if_pos hbc] at h2
            rw [if_pos (hab.trans hbc)]
            by_cases haz : a0 = 0
            · rw [if_pos haz]
            · rw [if_neg haz]
              rw [if_neg haz] at h1
              rw [if_neg (fun h => haz (hab.trans h))] at h2
              exact ih bs cs h1 h2
          · rw [if_neg hbc] at h2
            rw [if_neg (fun h => hbc (hab ▸ h))]
            omega
        · rw [if_neg hab] at h1
          by_cases hac : a0 = c0
          · rw [if_pos hac]
            by_cases hbc : b0 = c0
            · exact absurd (hac.trans hbc.symm) hab
            · rw [if_neg hbc] at h2
              exfalso; omega
          · rw [if_neg hac]
            by_cases hbc : b0 = c0
            · rw [if_pos hbc] at h2; omega
            · rw [if_neg hbc] at h2; omega

theorem dentLe_trans (a b c : Nat × List Nat) (h1 : dentLe a b = true)
    (h2 : dentLe b c = true) : dentLe a c = true := by
  simp only [dentLe, decide_eq_true_eq] at h1 h2 ⊢
  exact strcmpB_trans a.2 b.2 c.2 h1 h2

theorem dentLe_total (a b : Nat × List Nat) :
    dentLe a b = true ∨ dentLe b a = true := by
  simp only [dentLe, decide_eq_true_eq]
  rcases le_or_lt (strcmpB a.2 b.2) 0 with h | h
  · exact Or.inl h
  · right; rw [strcmpB_neg]; omega

theorem mem_insEnt (e y : Nat × List Nat) : ∀ l, y ∈ insEnt e l →
    y = e ∨ y ∈ l := by
  intro l
  induction l with
  | nil => simp [insEnt]
  | cons x xs ih =>
    simp only [insEnt]
    by_cases h : dentLe e x = true
    · rw [if_pos h]
      intro hm
      rcases List.mem_cons.mp hm with h1 | h1
      · exact Or.inl h1
      · exact Or.inr h1
    · rw [if_neg h]
      intro hm
      rcases List.mem_cons.mp hm with h1 | h1
      · exact Or.inr (h1 ▸ List.mem_cons_self x xs)
      · rcases ih h1 with h2 | h2
        · exact Or.inl h2
        · exact Or.inr (List.mem_cons_of_mem x h2)

theorem sorted_insEnt (e : Nat × List Nat) : ∀ l, entsSorted l →
    entsSorted (insEnt e l) := by
  intro l
  induction l with
  | nil => intro _; simp [insEnt, entsSorted]
  | cons x xs ih =>
    intro hs
    have hx : ∀ y ∈ xs, dentLe x y = true := (List.pairwise_cons.mp hs).1
    have hxs : entsSorted xs := (List.pairwise_cons.mp hs).2
    simp only [insEnt]
    by_cases h : dentLe e x = true
    · rw [if_pos h]
      refine List.Pairwise.cons ?_ hs
      intro y hy
      rcases List.mem_cons.mp hy with rfl | hy'
      · exact h
      · exact dentLe_trans e x y h (hx y hy')
    · rw [if_neg h]
      refine List.Pairwise.cons ?_ (ih hxs)
      intro y hy
      rcases mem_insEnt e y xs hy with rfl | hy'
      · rcases dentLe_total x y with h2 | h2
        · exact h2
        · exact absurd h2 h
      · exact hx y hy'

theorem sortEnts_sorted : ∀ l, entsSorted (sortEnts l) := by
  intro l
  induction l with
  | nil => simp [sortEnts, entsSorted]
  | cons x xs ih => exact sorted_insEnt x (sortEnts xs) ih

/-- C5: every `fsz_link_inode` call that completes keeps every FS/Z
directory's embedded entry list ascending by name under the
`fsz_direntcmp` order (the insertion path re-sorts the one directory it
extends and leaves every other directory untouched) — so inserting
a.txt, b.txt, c.txt in any order leaves the listing sorted after each
single call, not only at close. -/
theorem fsz_link_inode_sorted (fuel : Nat) :
    ∀ (s : FszSt) (inode : Nat) (path : List Nat) (toinode : Nat)
      (s' : FszSt),
      fsz_link_inode fuel s inode path toinode = .ok s' →
      (∀ d, entsSorted (s.dirs d)) →
      ∀ d, entsSorted (s'.dirs d) := by
  induction fuel with
  | zero =>
    intro s inode path toinode s' hok
    exact absurd hok (by simp [fsz_link_inode])
  | succ f ih =>
    intro s inode path toinode s' hok hall d
    rw [fsz_link_inode] at hok
    cases hfind :
        ((s.dirs (if toinode = 0 then s.rootdirfid else toinode)).take
            23).find? (fun e => strncmpEq (compLen path + 1) e.2 path) with
    | some e =>
      rw [hfind] at hok
      simp only [Option.elim] at hok
      exact ih s inode (path.drop (compLen path + 1)) e.1 s' hok hall d
    | none =>
      rw [hfind] at hok
      simp only [Option.elim] at hok
      unfold fszStep at hok
      by_cases hfull :
          (s.dirs (if toinode = 0 then s.rootdirfid else toinode)).length
            ≥ 23
      · rw [if_pos hfull] at hok
        exact absurd hok (by simp)
      · rw [if_neg hfull] at hok
        have hs' := (Except.ok.inj hok).symm
        subst hs'
        show entsSorted ((fszInsertEnt s _ inode path).dirs d)
        simp only [fszInsertEnt, updF]
        by_cases hd : d = (if toinode = 0 then s.rootdirfid else toinode)
        · rw [if_pos hd]
          exact sortEnts_sorted _
        · rw [if_neg hd]
          exact hall d

theorem fsz_link_inode_sorted_wit :
    (fsz_link_inode 6 fszC5s2 4 bTxtB 0 = .ok fszC5s3 ∧
      ∀ d, entsSorted (fszC5s2.dirs d)) ∧
    (∀ d, entsSorted (fszC5s3.dirs d)) ∧
    (fszC5s3.dirs 1).map Prod.snd = [aTxtB, bTxtB, cTxtB] := by
  have hall : ∀ d, entsSorted (fszC5s2.dirs d) := by
    intro d
    show entsSorted (updF _ 1 _ d)
    unfold updF
    by_cases hd : d = 1
    · rw [if_pos hd]; exact sortEnts_sorted _
    · rw [if_neg hd]
      show entsSorted (updF _ 1 _ d)
      unfold updF
      rw [if_neg hd]
      exact List.Pairwise.nil
  refine ⟨⟨rfl, hall⟩, ?_, rfl⟩
  exact fsz_link_inode_sorted 6 fszC5s2 4 bTxtB 0 fszC5s3 rfl hall

theorem fszTextScan_isSome (data : List Nat) :
    ∀ n i, i + n ≤ data.length → (fszTextScan data i n).isSome = true := by
  intro n
  induction n with
  | zero => intro i _; rfl
  | succ n ih =>
    intro i h
    rw [fszTextScan]
    rw [List.getElem?_eq_getElem (show i < data.length by omega)]
    simp only [Option.some_bind]
    by_cases hb : data[i] < 9
    · rw [if_pos hb]; rfl
    · rw [if_neg hb]; exact ih (i + 1) (by omega)

/-- C10: the boot-signature sniff and the text-detection fallback of
`fsz_add_file` read the content buffer independently of the entry's
declared size — a 12-byte buffer opening with the boot signature makes
the sniff demand index 12 even for a declared size of 0 — so `add` on a
regular file silently requires the buffer to be readable well past
`size`; and once the buffer holds at least 13 bytes and `read_size`
bytes, every access of both phases stays in bounds (no read returns
`none`). -/
theorem fsz_add_file_reads_in_bounds (data : List Nat) (rdsize : Nat)
    (h13 : 13 ≤ data.length) (hrs : rdsize ≤ data.length) :
    ((fszSniffBoot data).isSome = true ∧
      (fszTextDetect data rdsize).isSome = true) ∧
    fszSniffBoot [0x55, 0xAA, 0, 0xE9, 0, 0, 0, 0, 66, 0, 0, 0] = none := by
  refine ⟨⟨?_, fszTextScan_isSome data rdsize 0 (by omega)⟩, by decide⟩
  unfold fszSniffBoot
  rw [List.getElem?_eq_getElem (show 0 < data.length by omega)]
  simp only [Option.some_bind]
  by_cases c0 : data[0] = 0x55
  · rw [if_pos c0]
    rw [List.getElem?_eq_getElem (show 1 < data.length by omega)]
    simp only [Option.some_bind]
    by_cases c1 : data[1] = 0xAA
    · rw [if_pos c1]
      rw [List.getElem?_eq_getElem (show 3 < data.length by omega)]
      simp only [Option.some_bind]
      by_cases c3 : data[3] = 0xE9
      · rw [if_pos c3]
        rw [List.getElem?_eq_getElem (show 8 < data.length by omega)]
        simp only [Option.some_bind]
        by_cases c8 : data[8] = 66
        · rw [if_pos c8]
          rw [List.getElem?_eq_getElem (show 12 < data.length by omega)]
          simp only [Option.some_bind]
          rfl
        · rw [if_neg c8]; rfl
      · rw [if_neg c3]; rfl
    · rw [if_neg c1]; rfl
  · rw [if_neg c0]; rfl

theorem fsz_add_file_reads_in_bounds_wit :
    (13 ≤ (List.replicate 13 (0 : Nat)).length ∧
      13 ≤ (List.replicate 13 (0 : Nat)).length) ∧
    ((fszSniffBoot (List.replicate 13 (0 : Nat))).isSome = true ∧
      (fszTextDetect (List.replicate 13 (0 : Nat)) 13).isSome = true) ∧
    fszSniffBoot [0x55, 0xAA, 0, 0xE9, 0, 0, 0, 0, 66, 0, 0, 0] = none :=
  ⟨⟨by decide, by decide⟩,
    fsz_add_file_reads_in_bounds (List.replicate 13 0) 13 (by decide)
      (by decide)⟩
